import Mathlib

/-!
# Column-to-table resolution of `parser/mysql/mysql_where.go`

A shallow embedding of the table binder (`extractTableNames`,
`handleJoinTableExpr`) and of the predicate resolver
(`extractColumnsFromWhere`, `extractColumnsFromExpr`).

* The syntax tree of `vitess-sqlparser` is an inductive family; only the
  fields the Go code reads (and a few neighbours that show what it does not
  read: projections, `ON` conditions, arithmetic nodes) are kept.
* A Go `map[string]string` is a finite map `Finmap`; two maps are equal when
  they hold the same entries.
* The Go functions mutate the maps they are handed.  Here every function takes
  the maps and returns the updated ones: `extractColumnsFromExpr` returns the
  pair `(columnTableMap, tableMap)`, and `extractColumnsFromWhere` returns the
  column map it built together with the alias map as the walk left it.
* The `fmt.Printf` diagnostics have no effect on the maps and are left out.
-/

namespace MysqlWhere

/-! ## Go maps -/

/-- A Go `map[string]string`. -/
abbrev GoMap := Finmap (fun _ : String => String)

/-- The map `make(map[string]string)`. -/
def GoMap.empty : GoMap := ∅

/-- The assignment `m[k] = v`. -/
def GoMap.set (m : GoMap) (k v : String) : GoMap := Finmap.insert k v m

/-- The lookup `v, ok := m[k]`. -/
def GoMap.get (m : GoMap) (k : String) : Option String := Finmap.lookup k m

/-- The loop `for k, v := range src { dst[k] = v }`.  The keys of `src` are
distinct, so the order in which Go visits them does not matter
(`mergeFrom_eq_foldl`). -/
def GoMap.mergeFrom (dst src : GoMap) : GoMap := src ∪ dst

/-- The map written `{k₁: v₁, k₂: v₂, ...}`, built by successive assignments. -/
def GoMap.ofList (l : List (String × String)) : GoMap :=
  l.foldl (fun m kv => m.set kv.1 kv.2) GoMap.empty

/-- The number of entries, `len(m)`. -/
def GoMap.len (m : GoMap) : Nat := m.keys.card

/-- The values stored in a map. -/
def GoMap.HasValue (m : GoMap) (v : String) : Prop := ∃ k, m.get k = some v

/-! ## Syntax tree -/

/-- The struct `sqlparser.TableName`; identifiers are kept as written. -/
structure TableName where
  Name : String
  Qualifier : String
deriving DecidableEq, Repr

mutual
/-- The interface `sqlparser.Expr`.  The first twelve variants are the ones
`extractColumnsFromExpr` has a case for; the others stand for the variants
that fall into its `default` case. -/
inductive Expr where
  | AndExpr (Left Right : Expr)
  | OrExpr (Left Right : Expr)
  | ComparisonExpr (Operator : String) (Left Right : Expr)
  | RangeCond (Operator : String) (Left From To : Expr)
  | IsExpr (Operator : String) (Expr : Expr)
  | NotExpr (Expr : Expr)
  | ParenExpr (Expr : Expr)
  | ColName (Name : String) (Qualifier : TableName)
  | SQLVal (Val : String)
  | Subquery (Select : SelectStatement)
  | FuncExpr (Name : String) (Exprs : List SelectExpr)
  | ExistsExpr (Subquery : SelectStatement)
  | NullVal
  | BoolVal (Val : Bool)
  | BinaryExpr (Operator : String) (Left Right : Expr)
  | UnaryExpr (Operator : String) (Expr : Expr)
/-- The interface `sqlparser.SelectExpr`. -/
inductive SelectExpr where
  | StarExpr (TableName : TableName)
  | AliasedExpr (Expr : Expr) (As : String)
  | Nextval (Expr : Expr)
/-- The struct `sqlparser.Where`. -/
inductive Where where
  | mk (Type_ : String) (Expr : Expr)
/-- The interface `sqlparser.SimpleTableExpr`. -/
inductive SimpleTableExpr where
  | TableName (t : TableName)
  | Subquery (Select : SelectStatement)
/-- The interface `sqlparser.TableExpr`. -/
inductive TableExpr where
  | AliasedTableExpr (Expr : SimpleTableExpr) (As : String)
  | ParenTableExpr (Exprs : List TableExpr)
  | JoinTableExpr (j : JoinTableExpr)
/-- The struct `sqlparser.JoinTableExpr`. -/
inductive JoinTableExpr where
  | mk (LeftExpr : TableExpr) (Join : String) (RightExpr : TableExpr) (On : Option Expr)
/-- The struct `sqlparser.Select`. -/
inductive Select where
  | mk (SelectExprs : List SelectExpr) (From : List TableExpr) (Where : Option Where)
/-- The interface `sqlparser.SelectStatement`. -/
inductive SelectStatement where
  | Select (s : Select)
  | Union (Type_ : String) (Left Right : SelectStatement)
  | ParenSelect (Select : SelectStatement)
end

/-- The field `stmt.SelectExprs`. -/
def Select.SelectExprs : Select → List SelectExpr
  | .mk se _ _ => se

/-- The field `stmt.From`. -/
def Select.From : Select → List TableExpr
  | .mk _ f _ => f

/-- The field `stmt.Where`. -/
def Select.Where : Select → Option Where
  | .mk _ _ w => w

/-! ## Table binder -/

/-- The body shared by the three `case *sqlparser.AliasedTableExpr` branches:
when the aliased expression is a plain table name, bind the alias (or, when
the alias is empty, the table name) to the table name. -/
def bindAliasedTableExpr (Expr : SimpleTableExpr) (As : String) (tableMap : GoMap) : GoMap :=
  match Expr with
  | .TableName tblName =>
    let alias_ := if As = "" then tblName.Name else As
    tableMap.set alias_ tblName.Name
  | .Subquery _ => tableMap

/-- The function `handleJoinTableExpr`: the left operand, then the right. -/
def handleJoinTableExpr (joinExpr : JoinTableExpr) (tableMap : GoMap) : GoMap :=
  match joinExpr with
  | .mk LeftExpr _ RightExpr _ =>
    let tableMap :=
      match LeftExpr with
      | .AliasedTableExpr e a => bindAliasedTableExpr e a tableMap
      | .JoinTableExpr left => handleJoinTableExpr left tableMap
      | .ParenTableExpr _ => tableMap
    match RightExpr with
    | .AliasedTableExpr e a => bindAliasedTableExpr e a tableMap
    | .JoinTableExpr right => handleJoinTableExpr right tableMap
    | .ParenTableExpr _ => tableMap

/-- The loop `for _, tableExpr := range stmt.From` of `extractTableNames`. -/
def extractTableNamesLoop (From : List TableExpr) (tableMap : GoMap) : GoMap :=
  match From with
  | [] => tableMap
  | tableExpr :: rest =>
    match tableExpr with
    | .AliasedTableExpr e a => extractTableNamesLoop rest (bindAliasedTableExpr e a tableMap)
    | .JoinTableExpr table => extractTableNamesLoop rest (handleJoinTableExpr table tableMap)
    | .ParenTableExpr _ => extractTableNamesLoop rest tableMap

/-- The function `extractTableNames`. -/
def extractTableNames (stmt : Select) : GoMap :=
  extractTableNamesLoop stmt.From GoMap.empty

/-! ### The binder as the specification words it -/

/-- The effective alias: the written alias if non-empty, the table name
otherwise. -/
def effectiveAlias (written tableName : String) : String :=
  if written ≠ "" then written else tableName

mutual
/-- The leaves of a table reference in depth-first order: within a join, the
whole left subtree before the right subtree; anything that is not a join is a
leaf. -/
def TableExpr.leaves : TableExpr → List TableExpr
  | .AliasedTableExpr e a => [.AliasedTableExpr e a]
  | .ParenTableExpr es => [.ParenTableExpr es]
  | .JoinTableExpr j => j.leaves
/-- The leaves below a join node. -/
def JoinTableExpr.leaves : JoinTableExpr → List TableExpr
  | .mk l _ r _ => l.leaves ++ r.leaves
end

/-- The leaves of a `FROM` list, in list order. -/
def fromLeaves : List TableExpr → List TableExpr
  | [] => []
  | t :: rest => t.leaves ++ fromLeaves rest

/-- One step of the specification's binder: an aliased-table leaf that is a
plain table name sets `map[effectiveAlias] := tableName`; any other leaf
contributes nothing. -/
def bindLeaf (m : GoMap) : TableExpr → GoMap
  | .AliasedTableExpr (.TableName t) a => m.set (effectiveAlias a t.Name) t.Name
  | _ => m

/-- The alias map as the specification describes it: start from the empty map
and bind the leaves from left to right. -/
def bindLeavesSpec (From : List TableExpr) : GoMap :=
  (fromLeaves From).foldl bindLeaf GoMap.empty

/-- What the binder does with one table reference, at the top level of
`FROM` and on either side of a join alike. -/
def bindTableExpr (t : TableExpr) (tableMap : GoMap) : GoMap :=
  match t with
  | .AliasedTableExpr e a => bindAliasedTableExpr e a tableMap
  | .JoinTableExpr j => handleJoinTableExpr j tableMap
  | .ParenTableExpr _ => tableMap

/-- An aliased table: the plain table name `p.1` with the written alias
`p.2`. -/
def aliasedTable (p : TableName × String) : TableExpr :=
  .AliasedTableExpr (.TableName p.1) p.2

/-- The key under which an aliased table is bound. -/
def aliasOrName (p : TableName × String) : String := effectiveAlias p.2 p.1.Name

/-! ## Predicate resolver -/

mutual
/-- The function `extractColumnsFromWhere`; the second component is the alias
map after the walk. -/
def extractColumnsFromWhere (where_ : Option Where) (tableMap : GoMap) : GoMap × GoMap :=
  match where_ with
  | some (.mk _ e) => extractColumnsFromExpr e GoMap.empty tableMap
  | none => (GoMap.empty, tableMap)

/-- The function `extractColumnsFromExpr`. -/
def extractColumnsFromExpr (expr : Expr) (columnTableMap tableMap : GoMap) : GoMap × GoMap :=
  match expr with
  | .AndExpr l r =>
    let (columnTableMap, tableMap) := extractColumnsFromExpr l columnTableMap tableMap
    extractColumnsFromExpr r columnTableMap tableMap
  | .OrExpr l r =>
    let (columnTableMap, tableMap) := extractColumnsFromExpr l columnTableMap tableMap
    extractColumnsFromExpr r columnTableMap tableMap
  | .ComparisonExpr _ l r =>
    let (columnTableMap, tableMap) := extractColumnsFromExpr l columnTableMap tableMap
    extractColumnsFromExpr r columnTableMap tableMap
  | .RangeCond _ l f t =>
    let (columnTableMap, tableMap) := extractColumnsFromExpr l columnTableMap tableMap
    let (columnTableMap, tableMap) := extractColumnsFromExpr f columnTableMap tableMap
    extractColumnsFromExpr t columnTableMap tableMap
  | .IsExpr _ e => extractColumnsFromExpr e columnTableMap tableMap
  | .NotExpr e => extractColumnsFromExpr e columnTableMap tableMap
  | .ParenExpr e => extractColumnsFromExpr e columnTableMap tableMap
  | .ColName column q =>
    let tableAlias := q.Name
    if tableAlias ≠ "" then
      match tableMap.get tableAlias with
      | some table => (columnTableMap.set column table, tableMap)
      | none => (columnTableMap, tableMap)
    else (columnTableMap, tableMap)
  | .SQLVal _ => (columnTableMap, tableMap)
  | .Subquery (.Select (.mk se from_ where_)) =>
    let subTableMap := extractTableNames (.mk se from_ where_)
    let tableMap := tableMap.mergeFrom subTableMap
    let (subColumnTableMap, tableMap) := extractColumnsFromWhere where_ tableMap
    (columnTableMap.mergeFrom subColumnTableMap, tableMap)
  | .Subquery _ => (columnTableMap, tableMap)
  | .FuncExpr _ args => extractColumnsFromFuncArgs args columnTableMap tableMap
  | .ExistsExpr (.Select (.mk se from_ where_)) =>
    let subTableMap := extractTableNames (.mk se from_ where_)
    let tableMap := tableMap.mergeFrom subTableMap
    let (subColumnTableMap, tableMap) := extractColumnsFromWhere where_ tableMap
    (columnTableMap.mergeFrom subColumnTableMap, tableMap)
  | .ExistsExpr _ => (columnTableMap, tableMap)
  | .NullVal => (columnTableMap, tableMap)
  | .BoolVal _ => (columnTableMap, tableMap)
  | .BinaryExpr _ _ _ => (columnTableMap, tableMap)
  | .UnaryExpr _ _ => (columnTableMap, tableMap)

/-- The loop `for _, arg := range v.Exprs` of the `FuncExpr` case. -/
def extractColumnsFromFuncArgs (args : List SelectExpr) (columnTableMap tableMap : GoMap) :
    GoMap × GoMap :=
  match args with
  | [] => (columnTableMap, tableMap)
  | arg :: rest =>
    match arg with
    | .AliasedExpr e _ =>
      let (columnTableMap, tableMap) := extractColumnsFromExpr e columnTableMap tableMap
      extractColumnsFromFuncArgs rest columnTableMap tableMap
    | .StarExpr _ => extractColumnsFromFuncArgs rest columnTableMap tableMap
    | .Nextval _ => extractColumnsFromFuncArgs rest columnTableMap tableMap
end

/-! ## The statements of the specification's examples -/

/-- A column reference `q.c`. -/
def col (q c : String) : Expr := .ColName c ⟨q, ""⟩

/-- A table reference `name AS as_` (no alias when `as_` is empty). -/
def tbl (name as_ : String) : TableExpr := .AliasedTableExpr (.TableName ⟨name, ""⟩) as_

/-- The statement `SELECT u.id FROM users u JOIN orders o ON u.id = o.user_id
WHERE u.age > 30 AND o.amount > 100`. -/
def joinQuery : Select :=
  .mk [.AliasedExpr (col "u" "id") ""]
    [.JoinTableExpr (.mk (tbl "users" "u") "join" (tbl "orders" "o")
      (some (.ComparisonExpr "=" (col "u" "id") (col "o" "user_id"))))]
    (some (.mk "where" (.AndExpr
      (.ComparisonExpr ">" (col "u" "age") (.SQLVal "30"))
      (.ComparisonExpr ">" (col "o" "amount") (.SQLVal "100")))))

/-- The expression `EXISTS (SELECT 1 FROM reviews r WHERE r.user_id = u.id AND
r.rating > 4)`. -/
def existsReviews : Expr :=
  .ExistsExpr (.Select (.mk [.AliasedExpr (.SQLVal "1") ""]
    [tbl "reviews" "r"]
    (some (.mk "where" (.AndExpr
      (.ComparisonExpr "=" (col "r" "user_id") (col "u" "id"))
      (.ComparisonExpr ">" (col "r" "rating") (.SQLVal "4")))))))

/-- The filter `u.age > 30 AND EXISTS (SELECT 1 FROM accounts u)`: the nested
statement binds the alias `u` again. -/
def rebindingFilter : Expr :=
  .AndExpr (.ComparisonExpr ">" (.ColName "age" ⟨"u", ""⟩) (.SQLVal "30"))
    (.ExistsExpr (.Select (.mk [.AliasedExpr (.SQLVal "1") ""]
      [.AliasedTableExpr (.TableName ⟨"accounts", ""⟩) "u"] none)))

/-- The filter `u.id = 1 AND o.id = 2`: two qualified references share the
column name `id`. -/
def collidingFilter : Expr :=
  .AndExpr (.ComparisonExpr "=" (.ColName "id" ⟨"u", ""⟩) (.SQLVal "1"))
    (.ComparisonExpr "=" (.ColName "id" ⟨"o", ""⟩) (.SQLVal "2"))

/-- The statement `SELECT 1 FROM reviews r WHERE u.id = 7`, whose filter uses
an alias its own `FROM` clause does not bind. -/
def correlatedSelect : Select :=
  .mk [.AliasedExpr (.SQLVal "1") ""] [.AliasedTableExpr (.TableName ⟨"reviews", ""⟩) "r"]
    (some (.mk "where" (.ComparisonExpr "=" (.ColName "id" ⟨"u", ""⟩) (.SQLVal "7"))))

/-! ## What occurs in an expression -/

mutual
/-- The column references `(qualifier, name)` occurring in an expression, from
left to right, those inside the `WHERE` clauses of nested statements
included. -/
def Expr.columnRefs : Expr → List (String × String)
  | .AndExpr l r => l.columnRefs ++ r.columnRefs
  | .OrExpr l r => l.columnRefs ++ r.columnRefs
  | .ComparisonExpr _ l r => l.columnRefs ++ r.columnRefs
  | .RangeCond _ l f t => l.columnRefs ++ f.columnRefs ++ t.columnRefs
  | .IsExpr _ e => e.columnRefs
  | .NotExpr e => e.columnRefs
  | .ParenExpr e => e.columnRefs
  | .ColName c q => [(q.Name, c)]
  | .SQLVal _ => []
  | .Subquery s => s.columnRefs
  | .FuncExpr _ args => argsColumnRefs args
  | .ExistsExpr s => s.columnRefs
  | .NullVal => []
  | .BoolVal _ => []
  | .BinaryExpr _ l r => l.columnRefs ++ r.columnRefs
  | .UnaryExpr _ e => e.columnRefs
/-- The column references in the `WHERE` clauses of a nested statement. -/
def SelectStatement.columnRefs : SelectStatement → List (String × String)
  | .Select (.mk _ _ w) => whereColumnRefs w
  | .Union _ l r => l.columnRefs ++ r.columnRefs
  | .ParenSelect s => s.columnRefs
/-- The column references in a `WHERE` clause. -/
def whereColumnRefs : Option Where → List (String × String)
  | none => []
  | some (.mk _ e) => e.columnRefs
/-- The column references in the arguments of a function call. -/
def argsColumnRefs : List SelectExpr → List (String × String)
  | [] => []
  | .AliasedExpr e _ :: rest => e.columnRefs ++ argsColumnRefs rest
  | .StarExpr _ :: rest => argsColumnRefs rest
  | .Nextval e :: rest => e.columnRefs ++ argsColumnRefs rest
end

/-- The table name of a leaf that is an aliased plain table name. -/
def leafTableName : TableExpr → Option String
  | .AliasedTableExpr (.TableName t) _ => some t.Name
  | _ => none

/-- The names of the plain tables among the leaves of a `FROM` list. -/
def fromTableNames (From : List TableExpr) : List String :=
  (fromLeaves From).filterMap leafTableName

mutual
/-- The names of the tables in the `FROM` clauses of the statements nested in
an expression (at any depth, through their `WHERE` clauses). -/
def Expr.subqueryTables : Expr → List String
  | .AndExpr l r => l.subqueryTables ++ r.subqueryTables
  | .OrExpr l r => l.subqueryTables ++ r.subqueryTables
  | .ComparisonExpr _ l r => l.subqueryTables ++ r.subqueryTables
  | .RangeCond _ l f t => l.subqueryTables ++ f.subqueryTables ++ t.subqueryTables
  | .IsExpr _ e => e.subqueryTables
  | .NotExpr e => e.subqueryTables
  | .ParenExpr e => e.subqueryTables
  | .ColName _ _ => []
  | .SQLVal _ => []
  | .Subquery s => s.subqueryTables
  | .FuncExpr _ args => argsSubqueryTables args
  | .ExistsExpr s => s.subqueryTables
  | .NullVal => []
  | .BoolVal _ => []
  | .BinaryExpr _ l r => l.subqueryTables ++ r.subqueryTables
  | .UnaryExpr _ e => e.subqueryTables
/-- The tables of a nested statement: its own `FROM` clause, then those nested
in its `WHERE` clause. -/
def SelectStatement.subqueryTables : SelectStatement → List String
  | .Select (.mk _ f w) => fromTableNames f ++ whereSubqueryTables w
  | .Union _ l r => l.subqueryTables ++ r.subqueryTables
  | .ParenSelect s => s.subqueryTables
/-- The tables of the statements nested in a `WHERE` clause. -/
def whereSubqueryTables : Option Where → List String
  | none => []
  | some (.mk _ e) => e.subqueryTables
/-- The tables of the statements nested in the arguments of a function call. -/
def argsSubqueryTables : List SelectExpr → List String
  | [] => []
  | .AliasedExpr e _ :: rest => e.subqueryTables ++ argsSubqueryTables rest
  | .StarExpr _ :: rest => argsSubqueryTables rest
  | .Nextval e :: rest => e.subqueryTables ++ argsSubqueryTables rest
end

/-- An operand of a simple comparison: a qualified column reference or a
literal. -/
def Expr.isSimpleOperand : Expr → Bool
  | .ColName _ q => q.Name ≠ ""
  | .SQLVal _ => true
  | _ => false

/-- An expression built only from `And`/`Or` nodes over `Comparison` nodes
whose operands are qualified column references or literals. -/
def Expr.isSimpleFilter : Expr → Bool
  | .AndExpr l r => l.isSimpleFilter && r.isSimpleFilter
  | .OrExpr l r => l.isSimpleFilter && r.isSimpleFilter
  | .ComparisonExpr _ l r => l.isSimpleOperand && r.isSimpleOperand
  | _ => false

/-- The qualifier of the last reference to the column `c` in a list of
references `(qualifier, name)`. -/
def lastQualifier (c : String) : List (String × String) → Option String
  | [] => none
  | (q, c1) :: rest =>
    match lastQualifier c rest with
    | some q1 => some q1
    | none => if c1 = c then some q else none

/-! ## Further notions of the specification -/

/-- The binding a leaf carries, when it is an aliased plain table name: its
effective alias and its table name. -/
def leafBinding : TableExpr → Option (String × String)
  | .AliasedTableExpr (.TableName t) a => some (effectiveAlias a t.Name, t.Name)
  | _ => none

/-- The table name of the rightmost leaf, in a list of leaves, that carries
the effective alias `k`. -/
def lastBinding (k : String) : List TableExpr → Option String
  | [] => none
  | t :: rest =>
    match lastBinding k rest with
    | some n => some n
    | none =>
      match leafBinding t with
      | some (a, n) => if a = k then some n else none
      | none => none

/-- The expression a function argument wraps, when the argument is an aliased
expression. -/
def aliasedExprOf : SelectExpr → Option Expr
  | .AliasedExpr e _ => some e
  | _ => none

/-- Resolving a list of expressions one after the other, each from the maps
the previous one left. -/
def resolveInOrder (es : List Expr) (C M : GoMap) : GoMap × GoMap :=
  es.foldl (fun s e => extractColumnsFromExpr e s.1 s.2) (C, M)

/-- The nodes `extractColumnsFromExpr` skips: a variant without a case of its
own, or a `Subquery`/`Exists` node whose statement is not a plain `SELECT`. -/
def Expr.isUnsupported : Expr → Bool
  | .NullVal => true
  | .BoolVal _ => true
  | .BinaryExpr _ _ _ => true
  | .UnaryExpr _ _ => true
  | .Subquery (.Select _) => false
  | .Subquery _ => true
  | .ExistsExpr (.Select _) => false
  | .ExistsExpr _ => true
  | _ => false

/-- The call `MAX(p.price)`. -/
def maxPrice : Expr := .FuncExpr "max" [.AliasedExpr (col "p" "price") ""]

/-- The call `COUNT(*)`. -/
def countStar : Expr := .FuncExpr "count" [.StarExpr ⟨"", ""⟩]

/-- The arithmetic expression `u.age + 1`. -/
def agePlusOne : Expr := .BinaryExpr "+" (col "u" "age") (.SQLVal "1")

/-- The subquery `(SELECT 1 FROM a x WHERE x.c = 1 UNION SELECT 1 FROM b y)`. -/
def unionSubquery : Expr :=
  .Subquery (.Union "union"
    (.Select (.mk [.AliasedExpr (.SQLVal "1") ""] [tbl "a" "x"]
      (some (.mk "where" (.ComparisonExpr "=" (col "x" "c") (.SQLVal "1"))))))
    (.Select (.mk [.AliasedExpr (.SQLVal "1") ""] [tbl "b" "y"] none)))

/-- The predicate `EXISTS (SELECT 1 FROM reviews r)`. -/
def existsReviewsBare : Expr :=
  .ExistsExpr (.Select (.mk [.AliasedExpr (.SQLVal "1") ""] [tbl "reviews" "r"] none))

/-- The comparison `r.rating > 4`. -/
def ratingFilter : Expr := .ComparisonExpr ">" (col "r" "rating") (.SQLVal "4")

/-- The query of `ExtractWhereColumns`:
`SELECT u.id, u.name, o.order_id, o.amount, (SELECT MAX(p.price) FROM products
p WHERE p.order_id = o.order_id) AS max_price FROM users u JOIN orders o ON
u.id = o.user_id WHERE u.age > 30 AND o.amount > 100 AND (u.name = 'John' OR
o.status = 'shipped') AND EXISTS (SELECT 1 FROM reviews r WHERE r.user_id =
u.id AND r.rating > 4)`. -/
def demoQuery : Select :=
  .mk
    [.AliasedExpr (col "u" "id") "", .AliasedExpr (col "u" "name") "",
      .AliasedExpr (col "o" "order_id") "", .AliasedExpr (col "o" "amount") "",
      .AliasedExpr
        (.Subquery (.Select (.mk [.AliasedExpr maxPrice ""] [tbl "products" "p"]
          (some (.mk "where"
            (.ComparisonExpr "=" (col "p" "order_id") (col "o" "order_id")))))))
        "max_price"]
    [.JoinTableExpr (.mk (tbl "users" "u") "join" (tbl "orders" "o")
      (some (.ComparisonExpr "=" (col "u" "id") (col "o" "user_id"))))]
    (some (.mk "where"
      (.AndExpr
        (.AndExpr
          (.AndExpr (.ComparisonExpr ">" (col "u" "age") (.SQLVal "30"))
            (.ComparisonExpr ">" (col "o" "amount") (.SQLVal "100")))
          (.ParenExpr (.OrExpr (.ComparisonExpr "=" (col "u" "name") (.SQLVal "John"))
            (.ComparisonExpr "=" (col "o" "status") (.SQLVal "shipped")))))
        existsReviews)))

/-! ## The walk on a bounded stack

The Go runtime gives a goroutine a stack of bounded size and aborts the
program with a fatal stack overflow once nested calls outgrow it; the walk has
no guard on its depth.  Here the stack holds `n` nested calls of the functions
of the walk: a call takes one of the `n` frames for as long as it runs, a loop
body runs in the frame of its function, and the result is `none` exactly where
the program aborts.  The size of a frame is abstracted to one unit. -/

/-- The function `handleJoinTableExpr` on a stack of `n` frames. -/
def handleJoinTableExprOnStack : Nat → JoinTableExpr → GoMap → Option GoMap
  | 0, _, _ => none
  | n + 1, .mk LeftExpr _ RightExpr _, tableMap =>
    (match LeftExpr with
      | .AliasedTableExpr e a => some (bindAliasedTableExpr e a tableMap)
      | .JoinTableExpr left => handleJoinTableExprOnStack n left tableMap
      | .ParenTableExpr _ => some tableMap).bind fun tableMap =>
    match RightExpr with
    | .AliasedTableExpr e a => some (bindAliasedTableExpr e a tableMap)
    | .JoinTableExpr right => handleJoinTableExprOnStack n right tableMap
    | .ParenTableExpr _ => some tableMap

/-- The loop of `extractTableNames`, with `n` frames left for the calls of
`handleJoinTableExpr` it makes. -/
def extractTableNamesLoopOnStack (n : Nat) : List TableExpr → GoMap → Option GoMap
  | [], tableMap => some tableMap
  | tableExpr :: rest, tableMap =>
    match tableExpr with
    | .AliasedTableExpr e a =>
      extractTableNamesLoopOnStack n rest (bindAliasedTableExpr e a tableMap)
    | .JoinTableExpr table =>
      (handleJoinTableExprOnStack n table tableMap).bind (extractTableNamesLoopOnStack n rest)
    | .ParenTableExpr _ => extractTableNamesLoopOnStack n rest tableMap

/-- The function `extractTableNames` on a stack of `n` frames. -/
def extractTableNamesOnStack : Nat → Select → Option GoMap
  | 0, _ => none
  | n + 1, stmt => extractTableNamesLoopOnStack n stmt.From GoMap.empty

/-- One turn of the loop `for _, arg := range v.Exprs`, unless the program has
aborted already: an aliased expression is handed to `walk`, which stands for
`extractColumnsFromExpr` on the frames that are left; any other argument is
skipped. -/
def resolveArgOnStack (walk : Expr → GoMap → GoMap → Option (GoMap × GoMap))
    (acc : Option (GoMap × GoMap)) (arg : SelectExpr) : Option (GoMap × GoMap) :=
  acc.bind fun s =>
    match arg with
    | .AliasedExpr e _ => walk e s.1 s.2
    | .StarExpr _ => some s
    | .Nextval _ => some s

mutual
/-- The function `extractColumnsFromWhere` on a stack of `n` frames. -/
def extractColumnsFromWhereOnStack : Nat → Option Where → GoMap → Option (GoMap × GoMap)
  | 0, _, _ => none
  | n + 1, where_, tableMap =>
    match where_ with
    | some (.mk _ e) => extractColumnsFromExprOnStack n e GoMap.empty tableMap
    | none => some (GoMap.empty, tableMap)

/-- The function `extractColumnsFromExpr` on a stack of `n` frames. -/
def extractColumnsFromExprOnStack : Nat → Expr → GoMap → GoMap → Option (GoMap × GoMap)
  | 0, _, _, _ => none
  | n + 1, expr, columnTableMap, tableMap =>
    match expr with
    | .AndExpr l r =>
      (extractColumnsFromExprOnStack n l columnTableMap tableMap).bind fun s =>
      extractColumnsFromExprOnStack n r s.1 s.2
    | .OrExpr l r =>
      (extractColumnsFromExprOnStack n l columnTableMap tableMap).bind fun s =>
      extractColumnsFromExprOnStack n r s.1 s.2
    | .ComparisonExpr _ l r =>
      (extractColumnsFromExprOnStack n l columnTableMap tableMap).bind fun s =>
      extractColumnsFromExprOnStack n r s.1 s.2
    | .RangeCond _ l f t =>
      (extractColumnsFromExprOnStack n l columnTableMap tableMap).bind fun s =>
      (extractColumnsFromExprOnStack n f s.1 s.2).bind fun s =>
      extractColumnsFromExprOnStack n t s.1 s.2
    | .IsExpr _ e => extractColumnsFromExprOnStack n e columnTableMap tableMap
    | .NotExpr e => extractColumnsFromExprOnStack n e columnTableMap tableMap
    | .ParenExpr e => extractColumnsFromExprOnStack n e columnTableMap tableMap
    | .ColName column q =>
      let tableAlias := q.Name
      if tableAlias ≠ "" then
        match tableMap.get tableAlias with
        | some table => some (columnTableMap.set column table, tableMap)
        | none => some (columnTableMap, tableMap)
      else some (columnTableMap, tableMap)
    | .SQLVal _ => some (columnTableMap, tableMap)
    | .Subquery (.Select (.mk se from_ where_)) =>
      (extractTableNamesOnStack n (.mk se from_ where_)).bind fun subTableMap =>
      (extractColumnsFromWhereOnStack n where_ (tableMap.mergeFrom subTableMap)).bind fun s =>
      some (columnTableMap.mergeFrom s.1, s.2)
    | .Subquery _ => some (columnTableMap, tableMap)
    | .FuncExpr _ args =>
      args.foldl (resolveArgOnStack (extractColumnsFromExprOnStack n))
        (some (columnTableMap, tableMap))
    | .ExistsExpr (.Select (.mk se from_ where_)) =>
      (extractTableNamesOnStack n (.mk se from_ where_)).bind fun subTableMap =>
      (extractColumnsFromWhereOnStack n where_ (tableMap.mergeFrom subTableMap)).bind fun s =>
      some (columnTableMap.mergeFrom s.1, s.2)
    | .ExistsExpr _ => some (columnTableMap, tableMap)
    | .NullVal => some (columnTableMap, tableMap)
    | .BoolVal _ => some (columnTableMap, tableMap)
    | .BinaryExpr _ _ _ => some (columnTableMap, tableMap)
    | .UnaryExpr _ _ => some (columnTableMap, tableMap)
end

/-! ### The depth of nested calls a tree asks for -/

mutual
/-- The number of frames `handleJoinTableExpr` needs on a join node: one for
itself above what its deeper operand needs. -/
def JoinTableExpr.callDepth : JoinTableExpr → Nat
  | .mk l _ r _ => max l.joinCallDepth r.joinCallDepth + 1
/-- The number of frames binding a table reference needs below the caller: a
join is handed to `handleJoinTableExpr`, any other reference is bound in
place. -/
def TableExpr.joinCallDepth : TableExpr → Nat
  | .AliasedTableExpr _ _ => 0
  | .ParenTableExpr _ => 0
  | .JoinTableExpr j => j.callDepth
end

/-- The number of frames the loop of `extractTableNames` needs below its own:
the most any join of the `FROM` list needs. -/
def fromCallDepth : List TableExpr → Nat
  | [] => 0
  | t :: rest => max t.joinCallDepth (fromCallDepth rest)

/-- The number of frames `extractTableNames` needs on a statement. -/
def Select.bindCallDepth (stmt : Select) : Nat := fromCallDepth stmt.From + 1

mutual
/-- The number of frames `extractColumnsFromExpr` needs on an expression: one
for itself above the deepest call it makes. -/
def Expr.callDepth : Expr → Nat
  | .AndExpr l r => max l.callDepth r.callDepth + 1
  | .OrExpr l r => max l.callDepth r.callDepth + 1
  | .ComparisonExpr _ l r => max l.callDepth r.callDepth + 1
  | .RangeCond _ l f t => max (max l.callDepth f.callDepth) t.callDepth + 1
  | .IsExpr _ e => e.callDepth + 1
  | .NotExpr e => e.callDepth + 1
  | .ParenExpr e => e.callDepth + 1
  | .ColName _ _ => 1
  | .SQLVal _ => 1
  | .Subquery (.Select (.mk _ f w)) => max (fromCallDepth f + 1) (whereCallDepth w) + 1
  | .Subquery _ => 1
  | .FuncExpr _ args => argsCallDepth args + 1
  | .ExistsExpr (.Select (.mk _ f w)) => max (fromCallDepth f + 1) (whereCallDepth w) + 1
  | .ExistsExpr _ => 1
  | .NullVal => 1
  | .BoolVal _ => 1
  | .BinaryExpr _ _ _ => 1
  | .UnaryExpr _ _ => 1
/-- The number of frames `extractColumnsFromWhere` needs on a `WHERE`
clause. -/
def whereCallDepth : Option Where → Nat
  | none => 1
  | some (.mk _ e) => e.callDepth + 1
/-- The number of frames the loop over the arguments of a function call needs
below its own: the most any aliased argument needs. -/
def argsCallDepth : List SelectExpr → Nat
  | [] => 0
  | .AliasedExpr e _ :: rest => max e.callDepth (argsCallDepth rest)
  | .StarExpr _ :: rest => argsCallDepth rest
  | .Nextval _ :: rest => argsCallDepth rest
end

/-- The literal `1` under `n` negations, `NOT NOT ... NOT 1`. -/
def nestedNot : Nat → Expr
  | 0 => .SQLVal "1"
  | n + 1 => .NotExpr (nestedNot n)

/-! ## The cases of the walk -/

/-- The cases of the type switch of `extractColumnsFromExpr`, for a property
`P` of expressions, `Q` of `WHERE` clauses and `R` of argument lists. -/
structure WalkCases (P : Expr → Prop) (Q : Option Where → Prop)
    (R : List SelectExpr → Prop) : Prop where
  hAnd : ∀ l r, P l → P r → P (.AndExpr l r)
  hOr : ∀ l r, P l → P r → P (.OrExpr l r)
  hCmp : ∀ op l r, P l → P r → P (.ComparisonExpr op l r)
  hRange : ∀ op l f t, P l → P f → P t → P (.RangeCond op l f t)
  hIs : ∀ op e, P e → P (.IsExpr op e)
  hNot : ∀ e, P e → P (.NotExpr e)
  hParen : ∀ e, P e → P (.ParenExpr e)
  hCol : ∀ c q, P (.ColName c q)
  hVal : ∀ v, P (.SQLVal v)
  hSub : ∀ se f w, Q w → P (.Subquery (.Select (.mk se f w)))
  hSubUnion : ∀ t l r, P (.Subquery (.Union t l r))
  hSubParen : ∀ s, P (.Subquery (.ParenSelect s))
  hFunc : ∀ n args, R args → P (.FuncExpr n args)
  hExists : ∀ se f w, Q w → P (.ExistsExpr (.Select (.mk se f w)))
  hExistsUnion : ∀ t l r, P (.ExistsExpr (.Union t l r))
  hExistsParen : ∀ s, P (.ExistsExpr (.ParenSelect s))
  hNull : P .NullVal
  hBool : ∀ b, P (.BoolVal b)
  hBinary : ∀ op l r, P (.BinaryExpr op l r)
  hUnary : ∀ op e, P (.UnaryExpr op e)
  hNone : Q none
  hSome : ∀ t e, P e → Q (some (.mk t e))
  hNil : R []
  hAliased : ∀ e a rest, P e → R rest → R (.AliasedExpr e a :: rest)
  hStar : ∀ t rest, R rest → R (.StarExpr t :: rest)
  hNextval : ∀ e rest, R rest → R (.Nextval e :: rest)

/-! ## Facts about Go maps -/

theorem GoMap.ext {m₁ m₂ : GoMap} (h : ∀ k, m₁.get k = m₂.get k) : m₁ = m₂ :=
  Finmap.ext_lookup h

theorem GoMap.get_empty (k : String) : GoMap.empty.get k = none :=
  Finmap.lookup_empty k

theorem GoMap.get_set (m : GoMap) (a v k : String) :
    (m.set a v).get k = if k = a then some v else m.get k := by
  unfold GoMap.set GoMap.get
  by_cases h : k = a
  · subst h
    simp [Finmap.lookup_insert]
  · simp [h, Finmap.lookup_insert_of_ne]

theorem GoMap.get_set_self (m : GoMap) (a v : String) : (m.set a v).get a = some v := by
  simp [GoMap.get_set]

theorem GoMap.get_mergeFrom (dst src : GoMap) (k : String) :
    (dst.mergeFrom src).get k = if k ∈ src then src.get k else dst.get k := by
  unfold GoMap.mergeFrom GoMap.get
  by_cases h : k ∈ src
  · simp [h, Finmap.lookup_union_left]
  · simp [h, Finmap.lookup_union_right]

theorem GoMap.mem_iff_get {m : GoMap} {k : String} : k ∈ m ↔ ∃ v, m.get k = some v :=
  Finmap.mem_iff

theorem GoMap.not_mem_iff_get {m : GoMap} {k : String} : k ∉ m ↔ m.get k = none :=
  Finmap.lookup_eq_none.symm

theorem GoMap.not_mem_empty (k : String) : k ∉ GoMap.empty :=
  Finmap.not_mem_empty

theorem GoMap.mem_set {m : GoMap} {a v k : String} : k ∈ m.set a v ↔ k = a ∨ k ∈ m :=
  Finmap.mem_insert

theorem GoMap.mem_mergeFrom {dst src : GoMap} {k : String} :
    k ∈ dst.mergeFrom src ↔ k ∈ src ∨ k ∈ dst :=
  Finmap.mem_union

theorem GoMap.mergeFrom_empty (dst : GoMap) : dst.mergeFrom GoMap.empty = dst :=
  Finmap.empty_union

/-- Writing the entries of `src` into `dst` one by one, in any order in which
they may be listed, gives `dst.mergeFrom src`. -/
theorem GoMap.mergeFrom_eq_foldl (dst src : GoMap) (l : List (String × String))
    (hl : (l.map Prod.fst).Nodup) (hsrc : ∀ k v, src.get k = some v ↔ (k, v) ∈ l) :
    l.foldl (fun m kv => m.set kv.1 kv.2) dst = dst.mergeFrom src := by
  induction l generalizing dst src with
  | nil =>
    have : src = GoMap.empty := by
      apply GoMap.ext
      intro k
      rw [GoMap.get_empty]
      cases h : src.get k with
      | none => rfl
      | some v => exact absurd ((hsrc k v).1 h) (List.not_mem_nil _)
    simp [this, GoMap.mergeFrom_empty]
  | cons kv rest ih =>
    obtain ⟨a, b⟩ := kv
    simp only [List.map_cons, List.nodup_cons] at hl
    have hrest : ∀ k v, (Finmap.erase a src).lookup k = some v ↔ (k, v) ∈ rest := by
      intro k v
      by_cases hk : k = a
      · subst hk
        rw [Finmap.lookup_erase]
        constructor
        · intro hnone
          cases hnone
        · intro hmem
          exact absurd (List.mem_map.2 ⟨(k, v), hmem, rfl⟩) hl.1
      · rw [Finmap.lookup_erase_ne hk]
        have := hsrc k v
        simp only [List.mem_cons, Prod.mk.injEq, hk, false_and, false_or] at this
        exact this
    rw [List.foldl_cons, ih (dst.set a b) (Finmap.erase a src) hl.2 hrest]
    apply GoMap.ext
    intro k
    rw [GoMap.get_mergeFrom, GoMap.get_mergeFrom, GoMap.get_set]
    by_cases hk : k = a
    · subst hk
      have hb : src.get k = some b := (hsrc k b).2 (List.mem_cons_self _ _)
      have hin : k ∈ src := GoMap.mem_iff_get.2 ⟨b, hb⟩
      simp [Finmap.mem_erase, hin, hb]
    · simp [Finmap.mem_erase, hk, GoMap.get, Finmap.lookup_erase_ne hk]

/-! ## Unfolding lemmas -/

section Unfold
variable (C M : GoMap)

theorem expr_and (l r : Expr) :
    extractColumnsFromExpr (.AndExpr l r) C M =
      extractColumnsFromExpr r (extractColumnsFromExpr l C M).1 (extractColumnsFromExpr l C M).2 :=
  rfl

theorem expr_or (l r : Expr) :
    extractColumnsFromExpr (.OrExpr l r) C M =
      extractColumnsFromExpr r (extractColumnsFromExpr l C M).1 (extractColumnsFromExpr l C M).2 :=
  rfl

theorem expr_comparison (op : String) (l r : Expr) :
    extractColumnsFromExpr (.ComparisonExpr op l r) C M =
      extractColumnsFromExpr r (extractColumnsFromExpr l C M).1 (extractColumnsFromExpr l C M).2 :=
  rfl

theorem expr_range (op : String) (l f t : Expr) :
    extractColumnsFromExpr (.RangeCond op l f t) C M =
      extractColumnsFromExpr t
        (extractColumnsFromExpr f (extractColumnsFromExpr l C M).1
          (extractColumnsFromExpr l C M).2).1
        (extractColumnsFromExpr f (extractColumnsFromExpr l C M).1
          (extractColumnsFromExpr l C M).2).2 :=
  rfl

theorem expr_is (op : String) (e : Expr) :
    extractColumnsFromExpr (.IsExpr op e) C M = extractColumnsFromExpr e C M :=
  rfl

theorem expr_not (e : Expr) :
    extractColumnsFromExpr (.NotExpr e) C M = extractColumnsFromExpr e C M :=
  rfl

theorem expr_paren (e : Expr) :
    extractColumnsFromExpr (.ParenExpr e) C M = extractColumnsFromExpr e C M :=
  rfl

theorem expr_colName (c : String) (q : TableName) :
    extractColumnsFromExpr (.ColName c q) C M =
      if q.Name ≠ "" then
        match M.get q.Name with
        | some table => (C.set c table, M)
        | none => (C, M)
      else (C, M) :=
  rfl

theorem expr_subquery (se : List SelectExpr) (f : List TableExpr) (w : Option Where) :
    extractColumnsFromExpr (.Subquery (.Select (.mk se f w))) C M =
      (C.mergeFrom
          (extractColumnsFromWhere w (M.mergeFrom (extractTableNames (.mk se f w)))).1,
        (extractColumnsFromWhere w (M.mergeFrom (extractTableNames (.mk se f w)))).2) :=
  rfl

theorem expr_exists (se : List SelectExpr) (f : List TableExpr) (w : Option Where) :
    extractColumnsFromExpr (.ExistsExpr (.Select (.mk se f w))) C M =
      (C.mergeFrom
          (extractColumnsFromWhere w (M.mergeFrom (extractTableNames (.mk se f w)))).1,
        (extractColumnsFromWhere w (M.mergeFrom (extractTableNames (.mk se f w)))).2) :=
  rfl

theorem expr_func (n : String) (args : List SelectExpr) :
    extractColumnsFromExpr (.FuncExpr n args) C M = extractColumnsFromFuncArgs args C M :=
  rfl

theorem where_some (t : String) (e : Expr) :
    extractColumnsFromWhere (some (.mk t e)) M = extractColumnsFromExpr e GoMap.empty M :=
  rfl

theorem where_none : extractColumnsFromWhere none M = (GoMap.empty, M) :=
  rfl

theorem args_nil : extractColumnsFromFuncArgs [] C M = (C, M) :=
  rfl

theorem args_aliased (e : Expr) (a : String) (rest : List SelectExpr) :
    extractColumnsFromFuncArgs (.AliasedExpr e a :: rest) C M =
      extractColumnsFromFuncArgs rest (extractColumnsFromExpr e C M).1
        (extractColumnsFromExpr e C M).2 :=
  rfl

theorem args_star (t : TableName) (rest : List SelectExpr) :
    extractColumnsFromFuncArgs (.StarExpr t :: rest) C M = extractColumnsFromFuncArgs rest C M :=
  rfl

theorem args_nextval (e : Expr) (rest : List SelectExpr) :
    extractColumnsFromFuncArgs (.Nextval e :: rest) C M = extractColumnsFromFuncArgs rest C M :=
  rfl

end Unfold

/-! ## Induction along the walk -/

mutual
theorem walk_expr {P : Expr → Prop} {Q : Option Where → Prop} {R : List SelectExpr → Prop}
    (h : WalkCases P Q R) : ∀ e, P e
  | .AndExpr l r => h.hAnd l r (walk_expr h l) (walk_expr h r)
  | .OrExpr l r => h.hOr l r (walk_expr h l) (walk_expr h r)
  | .ComparisonExpr op l r => h.hCmp op l r (walk_expr h l) (walk_expr h r)
  | .RangeCond op l f t => h.hRange op l f t (walk_expr h l) (walk_expr h f) (walk_expr h t)
  | .IsExpr op e => h.hIs op e (walk_expr h e)
  | .NotExpr e => h.hNot e (walk_expr h e)
  | .ParenExpr e => h.hParen e (walk_expr h e)
  | .ColName c q => h.hCol c q
  | .SQLVal v => h.hVal v
  | .Subquery (.Select (.mk se f w)) => h.hSub se f w (walk_where h w)
  | .Subquery (.Union t l r) => h.hSubUnion t l r
  | .Subquery (.ParenSelect s) => h.hSubParen s
  | .FuncExpr n args => h.hFunc n args (walk_args h args)
  | .ExistsExpr (.Select (.mk se f w)) => h.hExists se f w (walk_where h w)
  | .ExistsExpr (.Union t l r) => h.hExistsUnion t l r
  | .ExistsExpr (.ParenSelect s) => h.hExistsParen s
  | .NullVal => h.hNull
  | .BoolVal b => h.hBool b
  | .BinaryExpr op l r => h.hBinary op l r
  | .UnaryExpr op e => h.hUnary op e
theorem walk_where {P : Expr → Prop} {Q : Option Where → Prop} {R : List SelectExpr → Prop}
    (h : WalkCases P Q R) : ∀ w, Q w
  | none => h.hNone
  | some (.mk t e) => h.hSome t e (walk_expr h e)
theorem walk_args {P : Expr → Prop} {Q : Option Where → Prop} {R : List SelectExpr → Prop}
    (h : WalkCases P Q R) : ∀ args, R args
  | [] => h.hNil
  | .AliasedExpr e a :: rest => h.hAliased e a rest (walk_expr h e) (walk_args h rest)
  | .StarExpr t :: rest => h.hStar t rest (walk_args h rest)
  | .Nextval e :: rest => h.hNextval e rest (walk_args h rest)
end

/-- Induction over the nodes `extractColumnsFromExpr` visits: a property of
expressions (`P`), of `WHERE` clauses (`Q`) and of argument lists (`R`) holds
everywhere once it is carried through every case of the type switch. -/
theorem walk_induction {P : Expr → Prop} {Q : Option Where → Prop} {R : List SelectExpr → Prop}
    (hAnd : ∀ l r, P l → P r → P (.AndExpr l r))
    (hOr : ∀ l r, P l → P r → P (.OrExpr l r))
    (hCmp : ∀ op l r, P l → P r → P (.ComparisonExpr op l r))
    (hRange : ∀ op l f t, P l → P f → P t → P (.RangeCond op l f t))
    (hIs : ∀ op e, P e → P (.IsExpr op e))
    (hNot : ∀ e, P e → P (.NotExpr e))
    (hParen : ∀ e, P e → P (.ParenExpr e))
    (hCol : ∀ c q, P (.ColName c q))
    (hVal : ∀ v, P (.SQLVal v))
    (hSub : ∀ se f w, Q w → P (.Subquery (.Select (.mk se f w))))
    (hSubUnion : ∀ t l r, P (.Subquery (.Union t l r)))
    (hSubParen : ∀ s, P (.Subquery (.ParenSelect s)))
    (hFunc : ∀ n args, R args → P (.FuncExpr n args))
    (hExists : ∀ se f w, Q w → P (.ExistsExpr (.Select (.mk se f w))))
    (hExistsUnion : ∀ t l r, P (.ExistsExpr (.Union t l r)))
    (hExistsParen : ∀ s, P (.ExistsExpr (.ParenSelect s)))
    (hNull : P .NullVal)
    (hBool : ∀ b, P (.BoolVal b))
    (hBinary : ∀ op l r, P (.BinaryExpr op l r))
    (hUnary : ∀ op e, P (.UnaryExpr op e))
    (hNone : Q none)
    (hSome : ∀ t e, P e → Q (some (.mk t e)))
    (hNil : R [])
    (hAliased : ∀ e a rest, P e → R rest → R (.AliasedExpr e a :: rest))
    (hStar : ∀ t rest, R rest → R (.StarExpr t :: rest))
    (hNextval : ∀ e rest, R rest → R (.Nextval e :: rest)) :
    (∀ e, P e) ∧ (∀ w, Q w) ∧ (∀ args, R args) :=
  have h : WalkCases P Q R :=
    ⟨hAnd, hOr, hCmp, hRange, hIs, hNot, hParen, hCol, hVal, hSub, hSubUnion, hSubParen, hFunc, hExists, hExistsUnion, hExistsParen, hNull, hBool, hBinary, hUnary, hNone, hSome, hNil, hAliased, hStar, hNextval⟩
  ⟨walk_expr h, walk_where h, walk_args h⟩

/-! ## The worked examples -/

/-- C1: for `SELECT u.id FROM users u JOIN orders o ON u.id = o.user_id WHERE
u.age > 30 AND o.amount > 100`, `extractTableNames` returns the alias map
`{u: users, o: orders}`, and `extractColumnsFromWhere` on its `WHERE` clause
with that alias map returns the column map `{age: users, amount: orders}`,
with no entry for `id` or `user_id`, and leaves the alias map as it was. -/
theorem C1_join_query_maps :
    extractTableNames joinQuery = GoMap.ofList [("u", "users"), ("o", "orders")] ∧
    extractColumnsFromWhere joinQuery.Where (extractTableNames joinQuery) =
      (GoMap.ofList [("age", "users"), ("amount", "orders")],
        GoMap.ofList [("u", "users"), ("o", "orders")]) ∧
    (extractColumnsFromWhere joinQuery.Where (extractTableNames joinQuery)).1.get "id" = none ∧
    (extractColumnsFromWhere joinQuery.Where (extractTableNames joinQuery)).1.get "user_id"
      = none :=
  ⟨rfl, rfl, by decide, by decide⟩

/-- C2 fails as stated: resolving `EXISTS (SELECT 1 FROM reviews r WHERE
r.user_id = u.id AND r.rating > 4)` against `{u: users}` does not leave the
key `id` without an entry; the right operand `u.id` is resolved to `users`. -/
theorem C2_id_is_recorded :
    ¬ ((extractColumnsFromWhere (some (.mk "where" existsReviews))
          (GoMap.ofList [("u", "users")])).2 =
        GoMap.ofList [("u", "users"), ("r", "reviews")] ∧
      (extractColumnsFromWhere (some (.mk "where" existsReviews))
          (GoMap.ofList [("u", "users")])).1.get "user_id" = some "reviews" ∧
      (extractColumnsFromWhere (some (.mk "where" existsReviews))
          (GoMap.ofList [("u", "users")])).1.get "rating" = some "reviews" ∧
      (extractColumnsFromWhere (some (.mk "where" existsReviews))
          (GoMap.ofList [("u", "users")])).1.get "id" = none) := by
  intro h
  have hid : (extractColumnsFromWhere (some (.mk "where" existsReviews))
      (GoMap.ofList [("u", "users")])).1.get "id" = some "users" := by decide
  rw [hid] at h
  exact absurd h.2.2.2 (by simp)

/-- C2, amended: resolving `EXISTS (SELECT 1 FROM reviews r WHERE r.user_id =
u.id AND r.rating > 4)` against `{u: users}` yields the alias map
`{u: users, r: reviews}` and exactly the column map
`{user_id: reviews, id: users, rating: reviews}`. -/
theorem C2_exists_reviews_maps :
    extractColumnsFromWhere (some (.mk "where" existsReviews)) (GoMap.ofList [("u", "users")]) =
      (GoMap.ofList [("user_id", "reviews"), ("id", "users"), ("rating", "reviews")],
        GoMap.ofList [("u", "users"), ("r", "reviews")]) :=
  rfl

/-! ## Unresolvable qualifiers -/

/-- C7: a column reference `q.c` whose non-empty qualifier `q` is not a key of
the alias map leaves the column map and the alias map exactly as they were. -/
theorem C7_unbound_qualifier_no_change (c : String) (q : TableName) (C M : GoMap)
    (hq : q.Name ≠ "") (hM : q.Name ∉ M) :
    extractColumnsFromExpr (.ColName c q) C M = (C, M) := by
  rw [expr_colName, if_pos hq, GoMap.not_mem_iff_get.1 hM]

theorem C7_unbound_qualifier_no_change_witness :
    extractColumnsFromExpr (col "x" "age") (GoMap.ofList [("id", "users")])
        (GoMap.ofList [("u", "users")]) =
      (GoMap.ofList [("id", "users")], GoMap.ofList [("u", "users")]) :=
  C7_unbound_qualifier_no_change "age" ⟨"x", ""⟩ (GoMap.ofList [("id", "users")])
    (GoMap.ofList [("u", "users")]) (by decide) (by decide)

/-! ## The table binder -/

theorem handleJoinTableExpr_mk (l r : TableExpr) (jn : String) (cond : Option Expr) (m : GoMap) :
    handleJoinTableExpr (.mk l jn r cond) m = bindTableExpr r (bindTableExpr l m) := by
  cases l <;> cases r <;> rfl

theorem extractTableNamesLoop_cons (t : TableExpr) (rest : List TableExpr) (m : GoMap) :
    extractTableNamesLoop (t :: rest) m = extractTableNamesLoop rest (bindTableExpr t m) := by
  cases t <;> rfl

theorem bindAliasedTableExpr_eq (e : SimpleTableExpr) (a : String) (m : GoMap) :
    bindAliasedTableExpr e a m = bindLeaf m (.AliasedTableExpr e a) := by
  cases e with
  | TableName t =>
    unfold bindAliasedTableExpr bindLeaf effectiveAlias
    by_cases h : a = "" <;> simp [h]
  | Subquery s => rfl

theorem bindTableExpr_eq_foldl : ∀ (t : TableExpr) (m : GoMap),
    bindTableExpr t m = t.leaves.foldl bindLeaf m
  | .AliasedTableExpr e a, m => by
    simp [bindTableExpr, TableExpr.leaves, bindAliasedTableExpr_eq]
  | .ParenTableExpr es, m => by
    simp [bindTableExpr, TableExpr.leaves, bindLeaf]
  | .JoinTableExpr (.mk l jn r cond), m => by
    have hl := bindTableExpr_eq_foldl l m
    have hr := bindTableExpr_eq_foldl r (bindTableExpr l m)
    have hj : bindTableExpr (.JoinTableExpr (.mk l jn r cond)) m =
        bindTableExpr r (bindTableExpr l m) := handleJoinTableExpr_mk l r jn cond m
    rw [hj, hr, hl, TableExpr.leaves, JoinTableExpr.leaves, List.foldl_append]

theorem extractTableNamesLoop_eq_foldl (From : List TableExpr) (m : GoMap) :
    extractTableNamesLoop From m = (fromLeaves From).foldl bindLeaf m := by
  induction From generalizing m with
  | nil => rfl
  | cons t rest ih =>
    rw [extractTableNamesLoop_cons, ih, fromLeaves, List.foldl_append, bindTableExpr_eq_foldl]

/-- C3: for every `FROM` list, the map `extractTableNames` returns is the one
obtained from the empty map by visiting the leaves in left-to-right
depth-first order and setting `map[effectiveAlias] := tableName` at every
aliased plain table name, all other leaves contributing nothing. -/
theorem C3_extractTableNames_eq_bindLeavesSpec (stmt : Select) :
    extractTableNames stmt = bindLeavesSpec stmt.From :=
  extractTableNamesLoop_eq_foldl stmt.From GoMap.empty

theorem extractTableNamesLoop_aliased_mem (tables : List (TableName × String)) (m : GoMap)
    (k : String) :
    k ∈ extractTableNamesLoop (tables.map aliasedTable) m ↔
      k ∈ tables.map aliasOrName ∨ k ∈ m := by
  induction tables generalizing m with
  | nil => simp [extractTableNamesLoop]
  | cons p rest ih =>
    rw [List.map_cons, extractTableNamesLoop_cons, ih]
    simp only [aliasedTable, bindTableExpr, bindAliasedTableExpr_eq, bindLeaf, GoMap.mem_set,
      List.map_cons, List.mem_cons, aliasOrName]
    tauto

theorem extractTableNamesLoop_aliased_get_of_not_mem (tables : List (TableName × String))
    (m : GoMap) (k : String) (hk : k ∉ tables.map aliasOrName) :
    (extractTableNamesLoop (tables.map aliasedTable) m).get k = m.get k := by
  induction tables generalizing m with
  | nil => simp [extractTableNamesLoop]
  | cons p rest ih =>
    simp only [List.map_cons, List.mem_cons, not_or] at hk
    rw [List.map_cons, extractTableNamesLoop_cons, ih _ hk.2]
    simp only [aliasedTable, bindTableExpr, bindAliasedTableExpr_eq, bindLeaf, GoMap.get_set]
    rw [if_neg]
    exact hk.1

theorem extractTableNamesLoop_aliased_get (tables : List (TableName × String)) (m : GoMap)
    (hnd : (tables.map aliasOrName).Nodup) (p : TableName × String) (hp : p ∈ tables) :
    (extractTableNamesLoop (tables.map aliasedTable) m).get (aliasOrName p) = some p.1.Name := by
  induction tables generalizing m with
  | nil => cases hp
  | cons p0 rest ih =>
    simp only [List.map_cons, List.nodup_cons] at hnd
    rw [List.map_cons, extractTableNamesLoop_cons]
    rcases List.mem_cons.1 hp with rfl | hrest
    · rw [extractTableNamesLoop_aliased_get_of_not_mem _ _ _ hnd.1]
      simp [aliasedTable, bindTableExpr, bindAliasedTableExpr_eq, bindLeaf, GoMap.get_set,
        aliasOrName]
    · exact ih _ hnd.2 hrest

theorem extractTableNames_aliased_keys (se : List SelectExpr) (w : Option Where)
    (tables : List (TableName × String)) :
    (extractTableNames (.mk se (tables.map aliasedTable) w)).keys =
      (tables.map aliasOrName).toFinset := by
  ext k
  rw [Finmap.mem_keys, List.mem_toFinset]
  unfold extractTableNames
  rw [Select.From, extractTableNamesLoop_aliased_mem]
  simp [GoMap.not_mem_empty]

/-- C10 fails as stated: `FROM t x, s x` lists two aliased tables and no
join, and the alias map has one entry, not two. -/
theorem C10_duplicate_alias_one_entry :
    ¬ ∀ (se : List SelectExpr) (w : Option Where) (tables : List (TableName × String)),
      (extractTableNames (.mk se (tables.map aliasedTable) w)).len = tables.length := by
  intro h
  have h2 := h [] none [(⟨"t", ""⟩, "x"), (⟨"s", ""⟩, "x")]
  revert h2
  decide

/-- C10, amended: for every `FROM` list of N aliased tables and no joins
whose keys (the alias if there is one, the table name otherwise) are pairwise
distinct, the alias map has exactly N entries, one per table, keyed by
alias-or-name and holding the table name. -/
theorem C10_distinct_aliases_N_entries (se : List SelectExpr) (w : Option Where)
    (tables : List (TableName × String)) (hnd : (tables.map aliasOrName).Nodup) :
    (extractTableNames (.mk se (tables.map aliasedTable) w)).len = tables.length ∧
    (∀ k, k ∈ extractTableNames (.mk se (tables.map aliasedTable) w) ↔
      ∃ p ∈ tables, aliasOrName p = k) ∧
    ∀ p ∈ tables,
      (extractTableNames (.mk se (tables.map aliasedTable) w)).get (aliasOrName p) =
        some p.1.Name := by
  refine ⟨?_, ?_, ?_⟩
  · rw [GoMap.len, extractTableNames_aliased_keys, List.toFinset_card_of_nodup hnd,
      List.length_map]
  · intro k
    rw [← Finmap.mem_keys, extractTableNames_aliased_keys, List.mem_toFinset, List.mem_map]
  · intro p hp
    exact extractTableNamesLoop_aliased_get tables GoMap.empty hnd p hp

theorem C10_distinct_aliases_N_entries_witness :
    (extractTableNames (.mk [] ([(⟨"users", ""⟩, "u"), (⟨"orders", ""⟩, "")].map aliasedTable)
        none)).len = 2 :=
  (C10_distinct_aliases_N_entries [] none [(⟨"users", ""⟩, "u"), (⟨"orders", ""⟩, "")]
    (by decide)).1

/-! ## Keys are never removed -/

theorem expr_subquery_union (t : String) (l r : SelectStatement) (C M : GoMap) :
    extractColumnsFromExpr (.Subquery (.Union t l r)) C M = (C, M) :=
  rfl

theorem expr_subquery_paren (s : SelectStatement) (C M : GoMap) :
    extractColumnsFromExpr (.Subquery (.ParenSelect s)) C M = (C, M) :=
  rfl

theorem expr_exists_union (t : String) (l r : SelectStatement) (C M : GoMap) :
    extractColumnsFromExpr (.ExistsExpr (.Union t l r)) C M = (C, M) :=
  rfl

theorem expr_exists_paren (s : SelectStatement) (C M : GoMap) :
    extractColumnsFromExpr (.ExistsExpr (.ParenSelect s)) C M = (C, M) :=
  rfl

theorem expr_colName_cases (c : String) (q : TableName) (C M : GoMap) :
    (extractColumnsFromExpr (.ColName c q) C M = (C, M) ∧ (q.Name = "" ∨ M.get q.Name = none)) ∨
    ∃ t, q.Name ≠ "" ∧ M.get q.Name = some t ∧
      extractColumnsFromExpr (.ColName c q) C M = (C.set c t, M) := by
  rw [expr_colName]
  by_cases hq : q.Name = ""
  · left
    simp [hq]
  · cases hM : M.get q.Name with
    | none =>
      left
      simp [hq]
    | some t =>
      right
      exact ⟨t, hq, rfl, by simp [hq]⟩

theorem keys_grow :
    (∀ e C M, (∀ k, k ∈ C → k ∈ (extractColumnsFromExpr e C M).1) ∧
        (∀ k, k ∈ M → k ∈ (extractColumnsFromExpr e C M).2)) ∧
    (∀ w M, ∀ k, k ∈ M → k ∈ (extractColumnsFromWhere w M).2) ∧
    (∀ args C M, (∀ k, k ∈ C → k ∈ (extractColumnsFromFuncArgs args C M).1) ∧
        (∀ k, k ∈ M → k ∈ (extractColumnsFromFuncArgs args C M).2)) := by
  have seq : ∀ (f g : GoMap → GoMap → GoMap × GoMap),
      (∀ C M, (∀ k, k ∈ C → k ∈ (f C M).1) ∧ (∀ k, k ∈ M → k ∈ (f C M).2)) →
      (∀ C M, (∀ k, k ∈ C → k ∈ (g C M).1) ∧ (∀ k, k ∈ M → k ∈ (g C M).2)) →
      ∀ C M, (∀ k, k ∈ C → k ∈ (g (f C M).1 (f C M).2).1) ∧
        (∀ k, k ∈ M → k ∈ (g (f C M).1 (f C M).2).2) := by
    intro f g hf hg C M
    exact ⟨fun k hk => (hg _ _).1 k ((hf C M).1 k hk), fun k hk => (hg _ _).2 k ((hf C M).2 k hk)⟩
  apply walk_induction
    (P := fun e => ∀ C M, (∀ k, k ∈ C → k ∈ (extractColumnsFromExpr e C M).1) ∧
        (∀ k, k ∈ M → k ∈ (extractColumnsFromExpr e C M).2))
    (Q := fun w => ∀ M, ∀ k, k ∈ M → k ∈ (extractColumnsFromWhere w M).2)
    (R := fun args => ∀ C M, (∀ k, k ∈ C → k ∈ (extractColumnsFromFuncArgs args C M).1) ∧
        (∀ k, k ∈ M → k ∈ (extractColumnsFromFuncArgs args C M).2))
  case hAnd => exact fun l r hl hr => seq _ _ hl hr
  case hOr => exact fun l r hl hr => seq _ _ hl hr
  case hCmp => exact fun op l r hl hr => seq _ _ hl hr
  case hRange => exact fun op l f t hl hf ht => seq _ _ (seq _ _ hl hf) ht
  case hIs => exact fun op e he => he
  case hNot => exact fun e he => he
  case hParen => exact fun e he => he
  case hCol =>
    intro c q C M
    rcases expr_colName_cases c q C M with ⟨h, _⟩ | ⟨t, _, _, h⟩
    · rw [h]
      exact ⟨fun k hk => hk, fun k hk => hk⟩
    · rw [h]
      exact ⟨fun k hk => GoMap.mem_set.2 (Or.inr hk), fun k hk => hk⟩
  case hVal => exact fun v C M => ⟨fun k hk => hk, fun k hk => hk⟩
  case hSub =>
    intro se f w hw C M
    rw [expr_subquery]
    exact ⟨fun k hk => GoMap.mem_mergeFrom.2 (Or.inr hk),
      fun k hk => hw _ k (GoMap.mem_mergeFrom.2 (Or.inr hk))⟩
  case hSubUnion => exact fun t l r C M => ⟨fun k hk => hk, fun k hk => hk⟩
  case hSubParen => exact fun s C M => ⟨fun k hk => hk, fun k hk => hk⟩
  case hFunc => exact fun n args h => h
  case hExists =>
    intro se f w hw C M
    rw [expr_exists]
    exact ⟨fun k hk => GoMap.mem_mergeFrom.2 (Or.inr hk),
      fun k hk => hw _ k (GoMap.mem_mergeFrom.2 (Or.inr hk))⟩
  case hExistsUnion => exact fun t l r C M => ⟨fun k hk => hk, fun k hk => hk⟩
  case hExistsParen => exact fun s C M => ⟨fun k hk => hk, fun k hk => hk⟩
  case hNull => exact fun C M => ⟨fun k hk => hk, fun k hk => hk⟩
  case hBool => exact fun b C M => ⟨fun k hk => hk, fun k hk => hk⟩
  case hBinary => exact fun op l r C M => ⟨fun k hk => hk, fun k hk => hk⟩
  case hUnary => exact fun op e C M => ⟨fun k hk => hk, fun k hk => hk⟩
  case hNone => exact fun M k hk => hk
  case hSome => exact fun t e he M k hk => (he GoMap.empty M).2 k hk
  case hNil => exact fun C M => ⟨fun k hk => hk, fun k hk => hk⟩
  case hAliased => exact fun e a rest he hrest => seq _ _ he hrest
  case hStar => exact fun t rest hrest => hrest
  case hNextval => exact fun e rest hrest => hrest

/-- C9: during resolution both maps only grow in their key sets: after
`extractColumnsFromExpr e C M` every key of `C` is still a key of the column
map and every key of `M` is still a key of the alias map. -/
theorem C9_keys_only_grow (e : Expr) (C M : GoMap) :
    (∀ k, k ∈ C → k ∈ (extractColumnsFromExpr e C M).1) ∧
    (∀ k, k ∈ M → k ∈ (extractColumnsFromExpr e C M).2) :=
  keys_grow.1 e C M

theorem C9_keys_only_grow_witness :
    "id" ∈ (extractColumnsFromExpr existsReviews (GoMap.ofList [("id", "orders")])
        (GoMap.ofList [("u", "users")])).1 ∧
    "u" ∈ (extractColumnsFromExpr existsReviews (GoMap.ofList [("id", "orders")])
        (GoMap.ofList [("u", "users")])).2 :=
  ⟨(C9_keys_only_grow existsReviews (GoMap.ofList [("id", "orders")])
      (GoMap.ofList [("u", "users")])).1 "id" (by decide),
    (C9_keys_only_grow existsReviews (GoMap.ofList [("id", "orders")])
      (GoMap.ofList [("u", "users")])).2 "u" (by decide)⟩

/-! ## Unqualified columns -/

theorem keys_are_qualified_columns :
    (∀ e C M k, k ∈ (extractColumnsFromExpr e C M).1 →
        k ∈ C ∨ ∃ q, q ≠ "" ∧ (q, k) ∈ e.columnRefs) ∧
    (∀ w M k, k ∈ (extractColumnsFromWhere w M).1 → ∃ q, q ≠ "" ∧ (q, k) ∈ whereColumnRefs w) ∧
    (∀ args C M k, k ∈ (extractColumnsFromFuncArgs args C M).1 →
        k ∈ C ∨ ∃ q, q ≠ "" ∧ (q, k) ∈ argsColumnRefs args) := by
  have seq : ∀ (f g : GoMap → GoMap → GoMap × GoMap) (rf rg : List (String × String)),
      (∀ C M k, k ∈ (f C M).1 → k ∈ C ∨ ∃ q, q ≠ "" ∧ (q, k) ∈ rf) →
      (∀ C M k, k ∈ (g C M).1 → k ∈ C ∨ ∃ q, q ≠ "" ∧ (q, k) ∈ rg) →
      ∀ C M k, k ∈ (g (f C M).1 (f C M).2).1 → k ∈ C ∨ ∃ q, q ≠ "" ∧ (q, k) ∈ rf ++ rg := by
    intro f g rf rg hf hg C M k hk
    rcases hg _ _ k hk with h | ⟨q, hq, hmem⟩
    · rcases hf C M k h with h1 | ⟨q, hq, hmem⟩
      · exact Or.inl h1
      · exact Or.inr ⟨q, hq, List.mem_append_left _ hmem⟩
    · exact Or.inr ⟨q, hq, List.mem_append_right _ hmem⟩
  apply walk_induction
    (P := fun e => ∀ C M k, k ∈ (extractColumnsFromExpr e C M).1 →
        k ∈ C ∨ ∃ q, q ≠ "" ∧ (q, k) ∈ e.columnRefs)
    (Q := fun w => ∀ M k, k ∈ (extractColumnsFromWhere w M).1 →
        ∃ q, q ≠ "" ∧ (q, k) ∈ whereColumnRefs w)
    (R := fun args => ∀ C M k, k ∈ (extractColumnsFromFuncArgs args C M).1 →
        k ∈ C ∨ ∃ q, q ≠ "" ∧ (q, k) ∈ argsColumnRefs args)
  case hAnd => exact fun l r hl hr => seq _ _ _ _ hl hr
  case hOr => exact fun l r hl hr => seq _ _ _ _ hl hr
  case hCmp => exact fun op l r hl hr => seq _ _ _ _ hl hr
  case hRange => exact fun op l f t hl hf ht => seq _ _ _ _ (seq _ _ _ _ hl hf) ht
  case hIs => exact fun op e he => he
  case hNot => exact fun e he => he
  case hParen => exact fun e he => he
  case hCol =>
    intro c q C M k hk
    rcases expr_colName_cases c q C M with ⟨h, _⟩ | ⟨t, hq, _, h⟩
    · rw [h] at hk
      exact Or.inl hk
    · rw [h] at hk
      rcases GoMap.mem_set.1 hk with rfl | hC
      · exact Or.inr ⟨q.Name, hq, by simp [Expr.columnRefs]⟩
      · exact Or.inl hC
  case hVal => exact fun v C M k hk => Or.inl hk
  case hSub =>
    intro se f w hw C M k hk
    rw [expr_subquery] at hk
    rcases GoMap.mem_mergeFrom.1 hk with h | h
    · exact Or.inr (hw _ k h)
    · exact Or.inl h
  case hSubUnion => exact fun t l r C M k hk => Or.inl hk
  case hSubParen => exact fun s C M k hk => Or.inl hk
  case hFunc => exact fun n args h => h
  case hExists =>
    intro se f w hw C M k hk
    rw [expr_exists] at hk
    rcases GoMap.mem_mergeFrom.1 hk with h | h
    · exact Or.inr (hw _ k h)
    · exact Or.inl h
  case hExistsUnion => exact fun t l r C M k hk => Or.inl hk
  case hExistsParen => exact fun s C M k hk => Or.inl hk
  case hNull => exact fun C M k hk => Or.inl hk
  case hBool => exact fun b C M k hk => Or.inl hk
  case hBinary => exact fun op l r C M k hk => Or.inl hk
  case hUnary => exact fun op e C M k hk => Or.inl hk
  case hNone => exact fun M k hk => absurd hk (GoMap.not_mem_empty k)
  case hSome =>
    intro t e he M k hk
    rcases he GoMap.empty M k hk with h | h
    · exact absurd h (GoMap.not_mem_empty k)
    · exact h
  case hNil => exact fun C M k hk => Or.inl hk
  case hAliased => exact fun e a rest he hrest => seq _ _ _ _ he hrest
  case hStar => exact fun t rest hrest => hrest
  case hNextval =>
    intro e rest hrest C M k hk
    rcases hrest C M k hk with h | ⟨q, hq, hmem⟩
    · exact Or.inl h
    · exact Or.inr ⟨q, hq, List.mem_append_right _ hmem⟩

/-- C6: unqualified column references never create entries: every key of the
column map `extractColumnsFromWhere` returns is the name of a column reference
with a non-empty qualifier occurring in the expression (nested subquery
`WHERE` clauses included); so when every column reference is unqualified the
returned map is empty. -/
theorem C6_keys_are_qualified_columns (w : Option Where) (M : GoMap) :
    (∀ k, k ∈ (extractColumnsFromWhere w M).1 → ∃ q, q ≠ "" ∧ (q, k) ∈ whereColumnRefs w) ∧
    ((∀ r ∈ whereColumnRefs w, r.1 = "") → (extractColumnsFromWhere w M).1 = GoMap.empty) := by
  refine ⟨keys_are_qualified_columns.2.1 w M, ?_⟩
  intro hall
  apply GoMap.ext
  intro k
  rw [GoMap.get_empty]
  apply GoMap.not_mem_iff_get.1
  intro hk
  obtain ⟨q, hq, hmem⟩ := keys_are_qualified_columns.2.1 w M k hk
  exact hq (hall (q, k) hmem)

theorem C6_keys_are_qualified_columns_witness :
    (extractColumnsFromWhere
        (some (.mk "where" (.ComparisonExpr ">" (col "" "amount") (.SQLVal "100"))))
        (GoMap.ofList [("o", "orders")])).1 = GoMap.empty :=
  (C6_keys_are_qualified_columns
    (some (.mk "where" (.ComparisonExpr ">" (col "" "amount") (.SQLVal "100"))))
    (GoMap.ofList [("o", "orders")])).2 (by decide)

/-! ## Values of the column map -/

theorem GoMap.hasValue_empty (v : String) : ¬ GoMap.empty.HasValue v := by
  rintro ⟨k, hk⟩
  rw [GoMap.get_empty] at hk
  cases hk

theorem GoMap.hasValue_set {m : GoMap} {a b v : String} (h : (m.set a b).HasValue v) :
    v = b ∨ m.HasValue v := by
  obtain ⟨k, hk⟩ := h
  rw [GoMap.get_set] at hk
  by_cases hka : k = a
  · rw [if_pos hka] at hk
    exact Or.inl (Option.some.inj hk).symm
  · rw [if_neg hka] at hk
    exact Or.inr ⟨k, hk⟩

theorem GoMap.hasValue_mergeFrom {dst src : GoMap} {v : String}
    (h : (dst.mergeFrom src).HasValue v) : src.HasValue v ∨ dst.HasValue v := by
  obtain ⟨k, hk⟩ := h
  rw [GoMap.get_mergeFrom] at hk
  by_cases hks : k ∈ src
  · rw [if_pos hks] at hk
    exact Or.inl ⟨k, hk⟩
  · rw [if_neg hks] at hk
    exact Or.inr ⟨k, hk⟩

theorem GoMap.eq_empty_of_no_value {m : GoMap} (h : ∀ v, ¬ m.HasValue v) : m = GoMap.empty := by
  apply GoMap.ext
  intro k
  rw [GoMap.get_empty]
  cases hk : m.get k with
  | none => rfl
  | some v => exact absurd ⟨k, hk⟩ (h v)

theorem foldl_bindLeaf_hasValue (leaves : List TableExpr) (m : GoMap) (v : String)
    (h : (leaves.foldl bindLeaf m).HasValue v) :
    m.HasValue v ∨ v ∈ leaves.filterMap leafTableName := by
  induction leaves generalizing m with
  | nil => exact Or.inl h
  | cons t rest ih =>
    rw [List.foldl_cons] at h
    rcases ih _ h with h1 | h1
    · cases t with
      | AliasedTableExpr e a =>
        cases e with
        | TableName n =>
          rcases GoMap.hasValue_set h1 with rfl | h2
          · exact Or.inr (by simp [List.filterMap_cons, leafTableName])
          · exact Or.inl h2
        | Subquery sel => exact Or.inl h1
      | ParenTableExpr es => exact Or.inl h1
      | JoinTableExpr j => exact Or.inl h1
    · right
      rw [List.filterMap_cons]
      cases leafTableName t with
      | none => exact h1
      | some n => exact List.mem_cons_of_mem _ h1

theorem extractTableNames_hasValue (se : List SelectExpr) (f : List TableExpr)
    (w : Option Where) (v : String) (h : (extractTableNames (.mk se f w)).HasValue v) :
    v ∈ fromTableNames f := by
  unfold extractTableNames at h
  rw [Select.From, extractTableNamesLoop_eq_foldl] at h
  rcases foldl_bindLeaf_hasValue _ _ _ h with h1 | h1
  · exact absurd h1 (GoMap.hasValue_empty v)
  · exact h1

theorem values_come_from_bindings :
    (∀ e C M, (∀ v, (extractColumnsFromExpr e C M).1.HasValue v →
          C.HasValue v ∨ M.HasValue v ∨ v ∈ e.subqueryTables) ∧
        (∀ v, (extractColumnsFromExpr e C M).2.HasValue v →
          M.HasValue v ∨ v ∈ e.subqueryTables)) ∧
    (∀ w M, (∀ v, (extractColumnsFromWhere w M).1.HasValue v →
          M.HasValue v ∨ v ∈ whereSubqueryTables w) ∧
        (∀ v, (extractColumnsFromWhere w M).2.HasValue v →
          M.HasValue v ∨ v ∈ whereSubqueryTables w)) ∧
    (∀ args C M, (∀ v, (extractColumnsFromFuncArgs args C M).1.HasValue v →
          C.HasValue v ∨ M.HasValue v ∨ v ∈ argsSubqueryTables args) ∧
        (∀ v, (extractColumnsFromFuncArgs args C M).2.HasValue v →
          M.HasValue v ∨ v ∈ argsSubqueryTables args)) := by
  have seq : ∀ (f g : GoMap → GoMap → GoMap × GoMap) (rf rg : List String),
      (∀ C M, (∀ v, (f C M).1.HasValue v → C.HasValue v ∨ M.HasValue v ∨ v ∈ rf) ∧
        (∀ v, (f C M).2.HasValue v → M.HasValue v ∨ v ∈ rf)) →
      (∀ C M, (∀ v, (g C M).1.HasValue v → C.HasValue v ∨ M.HasValue v ∨ v ∈ rg) ∧
        (∀ v, (g C M).2.HasValue v → M.HasValue v ∨ v ∈ rg)) →
      ∀ C M, (∀ v, (g (f C M).1 (f C M).2).1.HasValue v →
          C.HasValue v ∨ M.HasValue v ∨ v ∈ rf ++ rg) ∧
        (∀ v, (g (f C M).1 (f C M).2).2.HasValue v → M.HasValue v ∨ v ∈ rf ++ rg) := by
    intro f g rf rg hf hg C M
    constructor
    · intro v hv
      rcases (hg _ _).1 v hv with h | h | h
      · rcases (hf C M).1 v h with h1 | h1 | h1
        · exact Or.inl h1
        · exact Or.inr (Or.inl h1)
        · exact Or.inr (Or.inr (List.mem_append_left _ h1))
      · rcases (hf C M).2 v h with h1 | h1
        · exact Or.inr (Or.inl h1)
        · exact Or.inr (Or.inr (List.mem_append_left _ h1))
      · exact Or.inr (Or.inr (List.mem_append_right _ h))
    · intro v hv
      rcases (hg _ _).2 v hv with h | h
      · rcases (hf C M).2 v h with h1 | h1
        · exact Or.inl h1
        · exact Or.inr (List.mem_append_left _ h1)
      · exact Or.inr (List.mem_append_right _ h)
  have same : ∀ (C M : GoMap) (l : List String),
      (∀ v, C.HasValue v → C.HasValue v ∨ M.HasValue v ∨ v ∈ l) ∧
        (∀ v, M.HasValue v → M.HasValue v ∨ v ∈ l) :=
    fun C M l => ⟨fun v hv => Or.inl hv, fun v hv => Or.inl hv⟩
  have nested : ∀ (se : List SelectExpr) (f : List TableExpr) (w : Option Where),
      (∀ M, (∀ v, (extractColumnsFromWhere w M).1.HasValue v →
          M.HasValue v ∨ v ∈ whereSubqueryTables w) ∧
        (∀ v, (extractColumnsFromWhere w M).2.HasValue v →
          M.HasValue v ∨ v ∈ whereSubqueryTables w)) →
      ∀ C M : GoMap,
        (∀ v, (C.mergeFrom (extractColumnsFromWhere w
              (M.mergeFrom (extractTableNames (.mk se f w)))).1).HasValue v →
          C.HasValue v ∨ M.HasValue v ∨ v ∈ fromTableNames f ++ whereSubqueryTables w) ∧
        (∀ v, (extractColumnsFromWhere w
              (M.mergeFrom (extractTableNames (.mk se f w)))).2.HasValue v →
          M.HasValue v ∨ v ∈ fromTableNames f ++ whereSubqueryTables w) := by
    intro se f w hw C M
    have merged : ∀ v, (M.mergeFrom (extractTableNames (.mk se f w))).HasValue v →
        M.HasValue v ∨ v ∈ fromTableNames f ++ whereSubqueryTables w := by
      intro v hv
      rcases GoMap.hasValue_mergeFrom hv with h | h
      · exact Or.inr (List.mem_append_left _ (extractTableNames_hasValue se f w v h))
      · exact Or.inl h
    constructor
    · intro v hv
      rcases GoMap.hasValue_mergeFrom hv with h | h
      · rcases (hw _).1 v h with h1 | h1
        · exact Or.inr (merged v h1)
        · exact Or.inr (Or.inr (List.mem_append_right _ h1))
      · exact Or.inl h
    · intro v hv
      rcases (hw _).2 v hv with h1 | h1
      · exact merged v h1
      · exact Or.inr (List.mem_append_right _ h1)
  apply walk_induction
    (P := fun e => ∀ C M, (∀ v, (extractColumnsFromExpr e C M).1.HasValue v →
          C.HasValue v ∨ M.HasValue v ∨ v ∈ e.subqueryTables) ∧
        (∀ v, (extractColumnsFromExpr e C M).2.HasValue v →
          M.HasValue v ∨ v ∈ e.subqueryTables))
    (Q := fun w => ∀ M, (∀ v, (extractColumnsFromWhere w M).1.HasValue v →
          M.HasValue v ∨ v ∈ whereSubqueryTables w) ∧
        (∀ v, (extractColumnsFromWhere w M).2.HasValue v →
          M.HasValue v ∨ v ∈ whereSubqueryTables w))
    (R := fun args => ∀ C M, (∀ v, (extractColumnsFromFuncArgs args C M).1.HasValue v →
          C.HasValue v ∨ M.HasValue v ∨ v ∈ argsSubqueryTables args) ∧
        (∀ v, (extractColumnsFromFuncArgs args C M).2.HasValue v →
          M.HasValue v ∨ v ∈ argsSubqueryTables args))
  case hAnd => exact fun l r hl hr => seq _ _ _ _ hl hr
  case hOr => exact fun l r hl hr => seq _ _ _ _ hl hr
  case hCmp => exact fun op l r hl hr => seq _ _ _ _ hl hr
  case hRange => exact fun op l f t hl hf ht => seq _ _ _ _ (seq _ _ _ _ hl hf) ht
  case hIs => exact fun op e he => he
  case hNot => exact fun e he => he
  case hParen => exact fun e he => he
  case hCol =>
    intro c q C M
    rcases expr_colName_cases c q C M with ⟨h, _⟩ | ⟨t, _, hM, h⟩
    · rw [h]
      exact same C M _
    · rw [h]
      refine ⟨fun v hv => ?_, fun v hv => Or.inl hv⟩
      rcases GoMap.hasValue_set hv with rfl | h1
      · exact Or.inr (Or.inl ⟨q.Name, hM⟩)
      · exact Or.inl h1
  case hVal => exact fun v C M => same C M _
  case hSub => exact fun se f w hw C M => nested se f w hw C M
  case hSubUnion => exact fun t l r C M => same C M _
  case hSubParen => exact fun s C M => same C M _
  case hFunc => exact fun n args h => h
  case hExists => exact fun se f w hw C M => nested se f w hw C M
  case hExistsUnion => exact fun t l r C M => same C M _
  case hExistsParen => exact fun s C M => same C M _
  case hNull => exact fun C M => same C M _
  case hBool => exact fun b C M => same C M _
  case hBinary => exact fun op l r C M => same C M _
  case hUnary => exact fun op e C M => same C M _
  case hNone =>
    exact fun M => ⟨fun v hv => absurd hv (GoMap.hasValue_empty v), fun v hv => Or.inl hv⟩
  case hSome =>
    intro t e he M
    refine ⟨fun v hv => ?_, (he GoMap.empty M).2⟩
    rcases (he GoMap.empty M).1 v hv with h | h
    · exact absurd h (GoMap.hasValue_empty v)
    · exact h
  case hNil => exact fun C M => same C M _
  case hAliased => exact fun e a rest he hrest => seq _ _ _ _ he hrest
  case hStar => exact fun t rest hrest => hrest
  case hNextval =>
    intro e rest hrest C M
    refine ⟨fun v hv => ?_, fun v hv => ?_⟩
    · rcases (hrest C M).1 v hv with h | h | h
      · exact Or.inl h
      · exact Or.inr (Or.inl h)
      · exact Or.inr (Or.inr (List.mem_append_right _ h))
    · rcases (hrest C M).2 v hv with h | h
      · exact Or.inl h
      · exact Or.inr (List.mem_append_right _ h)

theorem alias_unchanged_without_nested_tables :
    (∀ e C M, e.subqueryTables = [] → (extractColumnsFromExpr e C M).2 = M) ∧
    (∀ w M, whereSubqueryTables w = [] → (extractColumnsFromWhere w M).2 = M) ∧
    (∀ args C M, argsSubqueryTables args = [] → (extractColumnsFromFuncArgs args C M).2 = M) := by
  have seq : ∀ (f g : GoMap → GoMap → GoMap × GoMap) (rf rg : List String),
      (∀ C M, rf = [] → (f C M).2 = M) → (∀ C M, rg = [] → (g C M).2 = M) →
      ∀ C M, rf ++ rg = [] → (g (f C M).1 (f C M).2).2 = M := by
    intro f g rf rg hf hg C M h
    rw [hg _ _ (List.append_eq_nil.1 h).2, hf _ _ (List.append_eq_nil.1 h).1]
  have nested : ∀ (se : List SelectExpr) (f : List TableExpr) (w : Option Where),
      (∀ M, whereSubqueryTables w = [] → (extractColumnsFromWhere w M).2 = M) →
      ∀ M : GoMap, fromTableNames f ++ whereSubqueryTables w = [] →
        (extractColumnsFromWhere w (M.mergeFrom (extractTableNames (.mk se f w)))).2 = M := by
    intro se f w hw M h
    have hnone : extractTableNames (.mk se f w) = GoMap.empty := by
      apply GoMap.eq_empty_of_no_value
      intro v hv
      have hmem := extractTableNames_hasValue se f w v hv
      rw [(List.append_eq_nil.1 h).1] at hmem
      cases hmem
    rw [hnone, GoMap.mergeFrom_empty, hw M (List.append_eq_nil.1 h).2]
  apply walk_induction
    (P := fun e => ∀ C M, e.subqueryTables = [] → (extractColumnsFromExpr e C M).2 = M)
    (Q := fun w => ∀ M, whereSubqueryTables w = [] → (extractColumnsFromWhere w M).2 = M)
    (R := fun args => ∀ C M, argsSubqueryTables args = [] →
      (extractColumnsFromFuncArgs args C M).2 = M)
  case hAnd => exact fun l r hl hr => seq _ _ _ _ hl hr
  case hOr => exact fun l r hl hr => seq _ _ _ _ hl hr
  case hCmp => exact fun op l r hl hr => seq _ _ _ _ hl hr
  case hRange => exact fun op l f t hl hf ht => seq _ _ _ _ (seq _ _ _ _ hl hf) ht
  case hIs => exact fun op e he => he
  case hNot => exact fun e he => he
  case hParen => exact fun e he => he
  case hCol =>
    intro c q C M _
    rcases expr_colName_cases c q C M with ⟨h, _⟩ | ⟨t, _, _, h⟩ <;> rw [h]
  case hVal => exact fun v C M _ => rfl
  case hSub =>
    intro se f w hw C M h
    rw [expr_subquery]
    exact nested se f w hw M h
  case hSubUnion => exact fun t l r C M _ => rfl
  case hSubParen => exact fun s C M _ => rfl
  case hFunc => exact fun n args h => h
  case hExists =>
    intro se f w hw C M h
    rw [expr_exists]
    exact nested se f w hw M h
  case hExistsUnion => exact fun t l r C M _ => rfl
  case hExistsParen => exact fun s C M _ => rfl
  case hNull => exact fun C M _ => rfl
  case hBool => exact fun b C M _ => rfl
  case hBinary => exact fun op l r C M _ => rfl
  case hUnary => exact fun op e C M _ => rfl
  case hNone => exact fun M _ => rfl
  case hSome => exact fun t e he M h => he GoMap.empty M h
  case hNil => exact fun C M _ => rfl
  case hAliased => exact fun e a rest he hrest => seq _ _ _ _ he hrest
  case hStar => exact fun t rest hrest => hrest
  case hNextval =>
    intro e rest hrest C M h
    exact hrest C M (List.append_eq_nil.1 h).2

/-- C8 fails as stated: for `u.age > 30 AND EXISTS (SELECT 1 FROM accounts u)`
resolved against `{u: users}`, the column map holds `age: users` while the
alias map has become `{u: accounts}`, so `users` is no longer one of its
values. -/
theorem C8_rebound_alias_loses_value :
    ¬ ∀ (w : Option Where) (M : GoMap) (v : String),
      (extractColumnsFromWhere w M).1.HasValue v → (extractColumnsFromWhere w M).2.HasValue v := by
  intro h
  have hcol : (extractColumnsFromWhere (some (.mk "where" rebindingFilter))
      (GoMap.ofList [("u", "users")])).1.HasValue "users" := ⟨"age", by decide⟩
  obtain ⟨k, hk⟩ := h _ _ _ hcol
  have halias : (extractColumnsFromWhere (some (.mk "where" rebindingFilter))
      (GoMap.ofList [("u", "users")])).2 = GoMap.empty.set "u" "accounts" := rfl
  rw [halias, GoMap.get_set, GoMap.get_empty] at hk
  by_cases hku : k = "u"
  · rw [if_pos hku] at hk
    exact absurd (Option.some.inj hk) (by decide)
  · rw [if_neg hku] at hk
    cases hk

/-- C8, amended: every value stored in the column map that
`extractColumnsFromWhere` returns is a table name the alias map held at some
point of the walk: a value of the initial alias map, or the name of a table in
the `FROM` clause of a statement nested in the expression.  The same holds of
the values of the alias map after the walk.  When no nested statement binds a
table, the alias map is unchanged and every value of the column map is a value
of the alias map as it stands after the walk. -/
theorem C8_values_come_from_alias_bindings (w : Option Where) (M : GoMap) :
    (∀ v, (extractColumnsFromWhere w M).1.HasValue v →
      M.HasValue v ∨ v ∈ whereSubqueryTables w) ∧
    (∀ v, (extractColumnsFromWhere w M).2.HasValue v →
      M.HasValue v ∨ v ∈ whereSubqueryTables w) ∧
    (whereSubqueryTables w = [] → ∀ v, (extractColumnsFromWhere w M).1.HasValue v →
      (extractColumnsFromWhere w M).2.HasValue v) := by
  refine ⟨(values_come_from_bindings.2.1 w M).1, (values_come_from_bindings.2.1 w M).2, ?_⟩
  intro hnil v hv
  rw [alias_unchanged_without_nested_tables.2.1 w M hnil]
  rcases (values_come_from_bindings.2.1 w M).1 v hv with h | h
  · exact h
  · rw [hnil] at h
    cases h

theorem C8_values_come_from_alias_bindings_witness :
    (GoMap.ofList [("u", "users")]).HasValue "users" ∨
      "users" ∈ whereSubqueryTables (some (.mk "where" rebindingFilter)) :=
  (C8_values_come_from_alias_bindings (some (.mk "where" rebindingFilter))
    (GoMap.ofList [("u", "users")])).1 "users" ⟨"age", by decide⟩

/-! ## Nested statements -/

/-- C4: resolving a `Subquery` node or an `Exists` node that carries the
`SELECT` statement `S` from `(C, M)` gives the alias map `M` overwritten by
`extractTableNames S` and then updated by the resolution of `S`'s `WHERE`
clause under that merged map, and the column map `C` overwritten by what
`extractColumnsFromWhere` returns for `S`'s `WHERE` clause under the merged
map; the two node kinds give the same result.  A column reference `q.c` whose
alias `q` is bound by `M` only is resolved, under the merged map, to `M`'s
table for `q`; so when `S`'s filter is `q.c op literal` the column map ends
with `c` mapped to that table. -/
theorem C4_nested_select_merges (S : Select) (C M : GoMap) :
    extractColumnsFromExpr (.Subquery (.Select S)) C M =
      (C.mergeFrom (extractColumnsFromWhere S.Where (M.mergeFrom (extractTableNames S))).1,
        (extractColumnsFromWhere S.Where (M.mergeFrom (extractTableNames S))).2) ∧
    extractColumnsFromExpr (.ExistsExpr (.Select S)) C M =
      extractColumnsFromExpr (.Subquery (.Select S)) C M ∧
    ∀ (q : TableName) (c t : String), q.Name ≠ "" → q.Name ∉ extractTableNames S →
      M.get q.Name = some t →
      (∀ C1, extractColumnsFromExpr (.ColName c q) C1 (M.mergeFrom (extractTableNames S)) =
        (C1.set c t, M.mergeFrom (extractTableNames S))) ∧
      (∀ ty op v, S.Where = some (.mk ty (.ComparisonExpr op (.ColName c q) (.SQLVal v))) →
        (extractColumnsFromExpr (.Subquery (.Select S)) C M).1.get c = some t) := by
  obtain ⟨se, f, w⟩ := S
  refine ⟨expr_subquery C M se f w, ?_, ?_⟩
  · rw [expr_subquery, expr_exists]
  · intro q c t hq hS hM
    have hmerged : (M.mergeFrom (extractTableNames (.mk se f w))).get q.Name = some t := by
      rw [GoMap.get_mergeFrom, if_neg hS, hM]
    have hcol : ∀ C1, extractColumnsFromExpr (.ColName c q) C1
        (M.mergeFrom (extractTableNames (.mk se f w))) =
          (C1.set c t, M.mergeFrom (extractTableNames (.mk se f w))) := by
      intro C1
      rw [expr_colName, if_pos hq, hmerged]
    refine ⟨hcol, ?_⟩
    intro ty op v hw
    simp only [Select.Where] at hw
    subst hw
    have hsub : (extractColumnsFromWhere
        (some (.mk ty (.ComparisonExpr op (.ColName c q) (.SQLVal v))))
        (M.mergeFrom (extractTableNames
          (.mk se f (some (.mk ty (.ComparisonExpr op (.ColName c q) (.SQLVal v)))))))).1 =
        GoMap.empty.set c t := by
      rw [where_some, expr_comparison, hcol]
      rfl
    rw [expr_subquery, hsub, GoMap.get_mergeFrom, if_pos (GoMap.mem_set.2 (Or.inl rfl)),
      GoMap.get_set_self]

theorem C4_nested_select_merges_witness :
    (extractColumnsFromExpr (.Subquery (.Select correlatedSelect)) GoMap.empty
      (GoMap.ofList [("u", "users")])).1.get "id" = some "users" :=
  ((C4_nested_select_merges correlatedSelect GoMap.empty (GoMap.ofList [("u", "users")])).2.2
    ⟨"u", ""⟩ "id" "users" (by decide) (by decide) (by decide)).2 "where" "=" "7" rfl

/-! ## Simple filters -/

theorem lastQualifier_append_some (c : String) (l₁ l₂ : List (String × String)) (q : String)
    (h : lastQualifier c l₂ = some q) : lastQualifier c (l₁ ++ l₂) = some q := by
  induction l₁ with
  | nil => exact h
  | cons r rest ih =>
    obtain ⟨q0, c0⟩ := r
    rw [List.cons_append, lastQualifier, ih]

theorem lastQualifier_append_none (c : String) (l₁ l₂ : List (String × String))
    (h : lastQualifier c l₂ = none) : lastQualifier c (l₁ ++ l₂) = lastQualifier c l₁ := by
  induction l₁ with
  | nil => exact h
  | cons r rest ih =>
    obtain ⟨q0, c0⟩ := r
    rw [List.cons_append, lastQualifier, ih, lastQualifier]

theorem lastQualifier_mem (c : String) (l : List (String × String)) (q : String)
    (h : lastQualifier c l = some q) : (q, c) ∈ l := by
  induction l with
  | nil => cases h
  | cons r rest ih =>
    obtain ⟨q0, c0⟩ := r
    simp only [lastQualifier] at h
    cases hrest : lastQualifier c rest with
    | some q1 =>
      rw [hrest] at h
      cases h
      exact List.mem_cons_of_mem _ (ih hrest)
    | none =>
      rw [hrest] at h
      by_cases hc : c0 = c
      · simp only [hc, if_true] at h
        cases h
        subst hc
        exact List.mem_cons_self _ _
      · simp [hc] at h

theorem lastQualifier_isSome (c : String) (l : List (String × String)) (q : String)
    (h : (q, c) ∈ l) : ∃ q1, lastQualifier c l = some q1 := by
  induction l with
  | nil => cases h
  | cons r rest ih =>
    obtain ⟨q0, c0⟩ := r
    simp only [lastQualifier]
    cases hrest : lastQualifier c rest with
    | some q1 => exact ⟨q1, rfl⟩
    | none =>
      rcases List.mem_cons.1 h with heq | hmem
      · cases heq
        exact ⟨q, by simp⟩
      · obtain ⟨q1, hq1⟩ := ih hmem
        rw [hrest] at hq1
        cases hq1

theorem simple_walk (M : GoMap) :
    ∀ e : Expr, ∀ C : GoMap, (e.isSimpleFilter = true ∨ e.isSimpleOperand = true) →
      (∀ r ∈ e.columnRefs, r.1 ∈ M) →
      (extractColumnsFromExpr e C M).2 = M ∧
      (∀ c q, lastQualifier c e.columnRefs = some q →
        (extractColumnsFromExpr e C M).1.get c = M.get q) ∧
      (∀ c, lastQualifier c e.columnRefs = none →
        (extractColumnsFromExpr e C M).1.get c = C.get c) := by
  have seq : ∀ (l r : Expr),
      (∀ C : GoMap, (extractColumnsFromExpr l C M).2 = M ∧
        (∀ c q, lastQualifier c l.columnRefs = some q →
          (extractColumnsFromExpr l C M).1.get c = M.get q) ∧
        (∀ c, lastQualifier c l.columnRefs = none →
          (extractColumnsFromExpr l C M).1.get c = C.get c)) →
      (∀ C : GoMap, (extractColumnsFromExpr r C M).2 = M ∧
        (∀ c q, lastQualifier c r.columnRefs = some q →
          (extractColumnsFromExpr r C M).1.get c = M.get q) ∧
        (∀ c, lastQualifier c r.columnRefs = none →
          (extractColumnsFromExpr r C M).1.get c = C.get c)) →
      ∀ C : GoMap,
        (extractColumnsFromExpr r (extractColumnsFromExpr l C M).1
          (extractColumnsFromExpr l C M).2).2 = M ∧
        (∀ c q, lastQualifier c (l.columnRefs ++ r.columnRefs) = some q →
          (extractColumnsFromExpr r (extractColumnsFromExpr l C M).1
            (extractColumnsFromExpr l C M).2).1.get c = M.get q) ∧
        (∀ c, lastQualifier c (l.columnRefs ++ r.columnRefs) = none →
          (extractColumnsFromExpr r (extractColumnsFromExpr l C M).1
            (extractColumnsFromExpr l C M).2).1.get c = C.get c) := by
    intro l r hl hr C
    have hl2 := (hl C).1
    rw [hl2]
    refine ⟨(hr _).1, ?_, ?_⟩
    · intro c q hq
      cases hr2 : lastQualifier c r.columnRefs with
      | some q1 =>
        rw [lastQualifier_append_some c _ _ q1 hr2] at hq
        rw [← Option.some.inj hq]
        exact (hr _).2.1 c q1 hr2
      | none =>
        rw [lastQualifier_append_none c _ _ hr2] at hq
        rw [(hr _).2.2 c hr2]
        exact (hl C).2.1 c q hq
    · intro c hq
      cases hr2 : lastQualifier c r.columnRefs with
      | some q1 =>
        rw [lastQualifier_append_some c _ _ q1 hr2] at hq
        cases hq
      | none =>
        rw [lastQualifier_append_none c _ _ hr2] at hq
        rw [(hr _).2.2 c hr2]
        exact (hl C).2.2 c hq
  have hP := (walk_induction
    (P := fun e => ∀ C : GoMap, (e.isSimpleFilter = true ∨ e.isSimpleOperand = true) →
      (∀ r ∈ e.columnRefs, r.1 ∈ M) →
      (extractColumnsFromExpr e C M).2 = M ∧
      (∀ c q, lastQualifier c e.columnRefs = some q →
        (extractColumnsFromExpr e C M).1.get c = M.get q) ∧
      (∀ c, lastQualifier c e.columnRefs = none →
        (extractColumnsFromExpr e C M).1.get c = C.get c))
    (Q := fun _ => True) (R := fun _ => True)
    ?hAnd ?hOr ?hCmp ?hRange ?hIs ?hNot ?hParen ?hCol ?hVal ?hSub ?hSubUnion ?hSubParen ?hFunc
    ?hExists ?hExistsUnion ?hExistsParen ?hNull ?hBool ?hBinary ?hUnary ?hNone ?hSome ?hNil
    ?hAliased ?hStar ?hNextval).1
  case hAnd =>
    intro l r hl hr C hs hb
    simp only [Expr.isSimpleFilter, Expr.isSimpleOperand, Bool.and_eq_true, or_false,
      Bool.false_eq_true] at hs
    simp only [Expr.columnRefs, List.mem_append] at hb
    exact seq l r (fun C1 => hl C1 (Or.inl hs.1) (fun x hx => hb x (Or.inl hx)))
      (fun C1 => hr C1 (Or.inl hs.2) (fun x hx => hb x (Or.inr hx))) C
  case hOr =>
    intro l r hl hr C hs hb
    simp only [Expr.isSimpleFilter, Expr.isSimpleOperand, Bool.and_eq_true, or_false,
      Bool.false_eq_true] at hs
    simp only [Expr.columnRefs, List.mem_append] at hb
    exact seq l r (fun C1 => hl C1 (Or.inl hs.1) (fun x hx => hb x (Or.inl hx)))
      (fun C1 => hr C1 (Or.inl hs.2) (fun x hx => hb x (Or.inr hx))) C
  case hCmp =>
    intro op l r hl hr C hs hb
    simp only [Expr.isSimpleFilter, Expr.isSimpleOperand, Bool.and_eq_true, or_false,
      Bool.false_eq_true] at hs
    simp only [Expr.columnRefs, List.mem_append] at hb
    exact seq l r (fun C1 => hl C1 (Or.inr hs.1) (fun x hx => hb x (Or.inl hx)))
      (fun C1 => hr C1 (Or.inr hs.2) (fun x hx => hb x (Or.inr hx))) C
  case hCol =>
    intro c q C hs hb
    simp only [Expr.isSimpleFilter, Expr.isSimpleOperand, Bool.false_eq_true, false_or,
      decide_eq_true_eq] at hs
    have hq : q.Name ∈ M := hb (q.Name, c) (by simp [Expr.columnRefs])
    obtain ⟨t, ht⟩ := GoMap.mem_iff_get.1 hq
    have hres : extractColumnsFromExpr (.ColName c q) C M = (C.set c t, M) := by
      rw [expr_colName, if_pos hs, ht]
    rw [hres]
    refine ⟨rfl, ?_, ?_⟩
    · intro c1 q1 h1
      simp only [Expr.columnRefs, lastQualifier] at h1
      by_cases hc : c = c1
      · simp only [hc, if_true, Option.some.injEq] at h1
        subst h1
        subst hc
        rw [GoMap.get_set_self, ht]
      · simp [hc] at h1
    · intro c1 h1
      simp only [Expr.columnRefs, lastQualifier] at h1
      by_cases hc : c = c1
      · simp [hc] at h1
      · rw [GoMap.get_set, if_neg (fun h => hc h.symm)]
  case hVal =>
    intro v C hs hb
    refine ⟨rfl, ?_, ?_⟩
    · intro c q h
      simp [Expr.columnRefs, lastQualifier] at h
    · intro c h
      rfl
  case hRange => intro op l f t _ _ _ C hs; simp [Expr.isSimpleFilter, Expr.isSimpleOperand] at hs
  case hIs => intro op e _ C hs; simp [Expr.isSimpleFilter, Expr.isSimpleOperand] at hs
  case hNot => intro e _ C hs; simp [Expr.isSimpleFilter, Expr.isSimpleOperand] at hs
  case hParen => intro e _ C hs; simp [Expr.isSimpleFilter, Expr.isSimpleOperand] at hs
  case hSub => intro se f w _ C hs; simp [Expr.isSimpleFilter, Expr.isSimpleOperand] at hs
  case hSubUnion => intro t l r C hs; simp [Expr.isSimpleFilter, Expr.isSimpleOperand] at hs
  case hSubParen => intro s C hs; simp [Expr.isSimpleFilter, Expr.isSimpleOperand] at hs
  case hFunc => intro n args _ C hs; simp [Expr.isSimpleFilter, Expr.isSimpleOperand] at hs
  case hExists => intro se f w _ C hs; simp [Expr.isSimpleFilter, Expr.isSimpleOperand] at hs
  case hExistsUnion => intro t l r C hs; simp [Expr.isSimpleFilter, Expr.isSimpleOperand] at hs
  case hExistsParen => intro s C hs; simp [Expr.isSimpleFilter, Expr.isSimpleOperand] at hs
  case hNull => intro C hs; simp [Expr.isSimpleFilter, Expr.isSimpleOperand] at hs
  case hBool => intro b C hs; simp [Expr.isSimpleFilter, Expr.isSimpleOperand] at hs
  case hBinary => intro op l r C hs; simp [Expr.isSimpleFilter, Expr.isSimpleOperand] at hs
  case hUnary => intro op e C hs; simp [Expr.isSimpleFilter, Expr.isSimpleOperand] at hs
  case hNone => trivial
  case hSome => intros; trivial
  case hNil => trivial
  case hAliased => intros; trivial
  case hStar => intros; trivial
  case hNextval => intros; trivial
  exact hP

/-- C5 fails as stated: in `u.id = 1 AND o.id = 2` with `u` bound to `users`
and `o` to `orders`, the reference `u.id` occurs, yet the entry for `id` maps
to `orders`, not to the table `users` that the alias map binds `u` to. -/
theorem C5_colliding_names_last_wins :
    ¬ ∀ (ty : String) (e : Expr) (M : GoMap), e.isSimpleFilter = true →
      (∀ r ∈ e.columnRefs, r.1 ∈ M) →
      ∀ q c, (q, c) ∈ e.columnRefs →
        (extractColumnsFromWhere (some (.mk ty e)) M).1.get c = M.get q := by
  intro h
  have h1 := h "where" collidingFilter (GoMap.ofList [("u", "users"), ("o", "orders")])
    (by decide) (by decide) "u" "id" (by decide)
  revert h1
  decide

/-- C5, amended: for every `WHERE` expression built only from `And`/`Or`
nodes over `Comparison` nodes whose operands are qualified column references
or literals, and every alias map that binds each qualifier used, the column
map has, for every qualified reference `q.c` in the expression, an entry for
`c` (one, as in any map), and it maps `c` to the table the alias map binds the
qualifier of the last reference named `c` to; this is the table of `q`
whenever all references named `c` are bound to the same table.  The alias map
is unchanged. -/
theorem C5_qualified_columns_resolved (ty : String) (e : Expr) (M : GoMap)
    (he : e.isSimpleFilter = true) (hM : ∀ r ∈ e.columnRefs, r.1 ∈ M)
    (q c : String) (hqc : (q, c) ∈ e.columnRefs) :
    (∃ q1 t, lastQualifier c e.columnRefs = some q1 ∧ (q1, c) ∈ e.columnRefs ∧
      M.get q1 = some t ∧
      (extractColumnsFromWhere (some (.mk ty e)) M).1.get c = some t) ∧
    ((∀ q1, (q1, c) ∈ e.columnRefs → M.get q1 = M.get q) →
      (extractColumnsFromWhere (some (.mk ty e)) M).1.get c = M.get q) ∧
    (extractColumnsFromWhere (some (.mk ty e)) M).2 = M := by
  obtain ⟨hal, hsome, _⟩ := simple_walk M e GoMap.empty (Or.inl he) hM
  obtain ⟨q1, hq1⟩ := lastQualifier_isSome c e.columnRefs q hqc
  have hmem := lastQualifier_mem c e.columnRefs q1 hq1
  obtain ⟨t, ht⟩ := GoMap.mem_iff_get.1 (hM (q1, c) hmem)
  rw [where_some]
  refine ⟨⟨q1, t, hq1, hmem, ht, ?_⟩, ?_, hal⟩
  · rw [hsome c q1 hq1, ht]
  · intro hsame
    rw [hsome c q1 hq1, hsame q1 hmem]

theorem C5_qualified_columns_resolved_witness :
    (extractColumnsFromWhere (some (.mk "where" collidingFilter))
      (GoMap.ofList [("u", "users"), ("o", "orders")])).2 =
        GoMap.ofList [("u", "users"), ("o", "orders")] :=
  (C5_qualified_columns_resolved "where" collidingFilter
    (GoMap.ofList [("u", "users"), ("o", "orders")]) (by decide) (by decide) "u" "id"
    (by decide)).2.2

/-! ## The cases of the type switch, one by one -/

/-- C14: with an absent (`nil`) `WHERE` clause, `extractColumnsFromWhere`
returns the empty column map and leaves the alias map unchanged. -/
theorem C14_absent_where_empty_map (M : GoMap) :
    extractColumnsFromWhere none M = (GoMap.empty, M) :=
  where_none M

/-- C15: operands are resolved strictly from left to right: an `And`, `Or` or
`Comparison` node resolves its left operand and then, from the maps that
leaves, its right operand; a `Range` node resolves the tested expression, then
the lower bound, then the upper bound.  So in `u.id = 1 AND o.id = 2`, with
`u` bound to `users` and `o` to `orders`, the column map ends as
`{id: orders}`. -/
theorem C15_operands_left_to_right (op : String) (l r f t : Expr) (C M : GoMap) :
    extractColumnsFromExpr (.AndExpr l r) C M =
      extractColumnsFromExpr r (extractColumnsFromExpr l C M).1 (extractColumnsFromExpr l C M).2 ∧
    extractColumnsFromExpr (.OrExpr l r) C M =
      extractColumnsFromExpr r (extractColumnsFromExpr l C M).1 (extractColumnsFromExpr l C M).2 ∧
    extractColumnsFromExpr (.ComparisonExpr op l r) C M =
      extractColumnsFromExpr r (extractColumnsFromExpr l C M).1 (extractColumnsFromExpr l C M).2 ∧
    extractColumnsFromExpr (.RangeCond op l f t) C M =
      extractColumnsFromExpr t
        (extractColumnsFromExpr f (extractColumnsFromExpr l C M).1
          (extractColumnsFromExpr l C M).2).1
        (extractColumnsFromExpr f (extractColumnsFromExpr l C M).1
          (extractColumnsFromExpr l C M).2).2 ∧
    extractColumnsFromWhere (some (.mk "where" collidingFilter))
        (GoMap.ofList [("u", "users"), ("o", "orders")]) =
      (GoMap.ofList [("id", "orders")], GoMap.ofList [("u", "users"), ("o", "orders")]) :=
  ⟨expr_and C M l r, expr_or C M l r, expr_comparison C M op l r, expr_range C M op l f t, rfl⟩

theorem extractColumnsFromFuncArgs_eq_resolveInOrder (args : List SelectExpr) (C M : GoMap) :
    extractColumnsFromFuncArgs args C M = resolveInOrder (args.filterMap aliasedExprOf) C M := by
  induction args generalizing C M with
  | nil => rfl
  | cons arg rest ih =>
    cases arg with
    | AliasedExpr e a =>
      rw [args_aliased, ih]
      simp [resolveInOrder, aliasedExprOf, List.filterMap_cons]
    | StarExpr t =>
      rw [args_star, ih]
      simp [aliasedExprOf, List.filterMap_cons]
    | Nextval e =>
      rw [args_nextval, ih]
      simp [aliasedExprOf, List.filterMap_cons]

/-- C16: resolving a function call is resolving, in argument order, the wrapped
expression of each argument that is an aliased expression, every other
argument being skipped: `MAX(p.price)` with `p` bound to `products`
contributes `price: products`, and `COUNT(*)` leaves both maps unchanged. -/
theorem C16_function_call_arguments (n : String) (args : List SelectExpr) (C M : GoMap) :
    extractColumnsFromExpr (.FuncExpr n args) C M =
      resolveInOrder (args.filterMap aliasedExprOf) C M ∧
    extractColumnsFromExpr maxPrice GoMap.empty (GoMap.ofList [("p", "products")]) =
      (GoMap.ofList [("price", "products")], GoMap.ofList [("p", "products")]) ∧
    extractColumnsFromExpr countStar C M = (C, M) :=
  ⟨by rw [expr_func, extractColumnsFromFuncArgs_eq_resolveInOrder], rfl, rfl⟩

theorem unsupported_unchanged (x : Expr) (hx : x.isUnsupported = true) (C M : GoMap) :
    extractColumnsFromExpr x C M = (C, M) := by
  cases x with
  | Subquery s =>
    cases s with
    | Select sel => simp [Expr.isUnsupported] at hx
    | Union t l r => rfl
    | ParenSelect s1 => rfl
  | ExistsExpr s =>
    cases s with
    | Select sel => simp [Expr.isUnsupported] at hx
    | Union t l r => rfl
    | ParenSelect s1 => rfl
  | NullVal => rfl
  | BoolVal b => rfl
  | BinaryExpr op l r => rfl
  | UnaryExpr op e => rfl
  | AndExpr l r => simp [Expr.isUnsupported] at hx
  | OrExpr l r => simp [Expr.isUnsupported] at hx
  | ComparisonExpr op l r => simp [Expr.isUnsupported] at hx
  | RangeCond op l f t => simp [Expr.isUnsupported] at hx
  | IsExpr op e => simp [Expr.isUnsupported] at hx
  | NotExpr e => simp [Expr.isUnsupported] at hx
  | ParenExpr e => simp [Expr.isUnsupported] at hx
  | ColName c q => simp [Expr.isUnsupported] at hx
  | SQLVal v => simp [Expr.isUnsupported] at hx
  | FuncExpr n args => simp [Expr.isUnsupported] at hx

/-- C17: unsupported shapes are skipped locally: a node whose variant has no
case of its own (such as the arithmetic `u.age + 1`, qualified columns inside
it notwithstanding) and a `Subquery`/`Exists` node whose statement is not a
plain `SELECT` (such as a `UNION`) leave both maps unchanged, and `And(x, e)`
and `And(e, x)` with such a node `x` resolve to the same maps as `e` alone. -/
theorem C17_unsupported_nodes_skipped (x e : Expr) (C M : GoMap)
    (hx : x.isUnsupported = true) :
    extractColumnsFromExpr x C M = (C, M) ∧
    extractColumnsFromExpr (.AndExpr x e) C M = extractColumnsFromExpr e C M ∧
    extractColumnsFromExpr (.AndExpr e x) C M = extractColumnsFromExpr e C M ∧
    agePlusOne.isUnsupported = true ∧ unionSubquery.isUnsupported = true := by
  refine ⟨unsupported_unchanged x hx C M, ?_, ?_, rfl, rfl⟩
  · rw [expr_and, unsupported_unchanged x hx]
  · rw [expr_and, unsupported_unchanged x hx]

theorem C17_unsupported_nodes_skipped_witness :
    extractColumnsFromExpr agePlusOne GoMap.empty (GoMap.ofList [("u", "users")]) =
      (GoMap.empty, GoMap.ofList [("u", "users")]) :=
  (C17_unsupported_nodes_skipped agePlusOne (.SQLVal "1") GoMap.empty
    (GoMap.ofList [("u", "users")]) rfl).1

/-- C18: resolution depends on the order of the operands, so `And` is not
commutative: from the empty alias map, `EXISTS (SELECT 1 FROM reviews r) AND
r.rating > 4` yields the column map `{rating: reviews}`, the binding of `r`
having leaked into the enclosing scope before the column is visited, while
`r.rating > 4 AND EXISTS (SELECT 1 FROM reviews r)` yields the empty column
map. -/
theorem C18_and_not_commutative :
    (extractColumnsFromWhere (some (.mk "where" (.AndExpr existsReviewsBare ratingFilter)))
        GoMap.empty).1 = GoMap.ofList [("rating", "reviews")] ∧
    (extractColumnsFromWhere (some (.mk "where" (.AndExpr ratingFilter existsReviewsBare)))
        GoMap.empty).1 = GoMap.empty ∧
    (extractColumnsFromWhere (some (.mk "where" (.AndExpr existsReviewsBare ratingFilter)))
        GoMap.empty).1 ≠
      (extractColumnsFromWhere (some (.mk "where" (.AndExpr ratingFilter existsReviewsBare)))
        GoMap.empty).1 := by
  refine ⟨rfl, rfl, ?_⟩
  intro h
  have h1 : (extractColumnsFromWhere
      (some (.mk "where" (.AndExpr existsReviewsBare ratingFilter))) GoMap.empty).1.get "rating" =
      some "reviews" := by decide
  rw [h] at h1
  revert h1
  decide

/-! ## Colliding aliases -/

theorem foldl_bindLeaf_get (leaves : List TableExpr) (m : GoMap) (k : String) :
    (∀ n, lastBinding k leaves = some n → (leaves.foldl bindLeaf m).get k = some n) ∧
    (lastBinding k leaves = none → (leaves.foldl bindLeaf m).get k = m.get k) := by
  induction leaves generalizing m with
  | nil =>
    refine ⟨fun n h => ?_, fun _ => rfl⟩
    simp [lastBinding] at h
  | cons t rest ih =>
    rw [List.foldl_cons]
    cases hrest : lastBinding k rest with
    | some n1 =>
      refine ⟨fun n h => ?_, fun h => ?_⟩
      · simp only [lastBinding, hrest, Option.some.injEq] at h
        rw [← h]
        exact (ih _).1 n1 hrest
      · simp [lastBinding, hrest] at h
    | none =>
      have hstep : (rest.foldl bindLeaf (bindLeaf m t)).get k = (bindLeaf m t).get k :=
        (ih _).2 hrest
      rw [hstep]
      have hlast : lastBinding k (t :: rest) =
          match leafBinding t with
          | some (a, n) => if a = k then some n else none
          | none => none := by
        simp only [lastBinding, hrest]
      rw [hlast]
      cases t with
      | AliasedTableExpr e a =>
        cases e with
        | TableName tn =>
          simp only [leafBinding, bindLeaf, GoMap.get_set]
          by_cases hk : effectiveAlias a tn.Name = k
          · simp [hk]
          · have hk2 : ¬ k = effectiveAlias a tn.Name := fun h => hk h.symm
            simp [hk, hk2]
        | Subquery sel => simp [leafBinding, bindLeaf]
      | ParenTableExpr es => simp [leafBinding, bindLeaf]
      | JoinTableExpr j => simp [leafBinding, bindLeaf]

theorem extractTableNames_get (stmt : Select) (k : String) :
    (extractTableNames stmt).get k = lastBinding k (fromLeaves stmt.From) := by
  unfold extractTableNames
  rw [extractTableNamesLoop_eq_foldl]
  cases h : lastBinding k (fromLeaves stmt.From) with
  | some n => exact (foldl_bindLeaf_get _ _ k).1 n h
  | none => rw [(foldl_bindLeaf_get _ _ k).2 h, GoMap.get_empty]

/-- C11: binding `a AS x JOIN b AS x ON ...` yields an alias map in which `x`
maps to `b` (with no written alias, each table is keyed by its own name, and
the key of `b` maps to `b`); and for any `FROM` clause, whatever its join
trees, the value bound to an alias is the table name of the rightmost leaf, in
depth-first left-to-right order, that carries this effective alias. -/
theorem C11_rightmost_leaf_wins :
    (∀ (a b : TableName) (x jn : String) (cond : Option Expr) (se : List SelectExpr)
        (w : Option Where),
      (extractTableNames (.mk se
        [.JoinTableExpr (.mk (aliasedTable (a, x)) jn (aliasedTable (b, x)) cond)] w)).get
          (effectiveAlias x b.Name) = some b.Name ∧
      (x ≠ "" →
        (extractTableNames (.mk se
          [.JoinTableExpr (.mk (aliasedTable (a, x)) jn (aliasedTable (b, x)) cond)] w)).get x =
            some b.Name)) ∧
    (∀ (stmt : Select) (k : String),
      (extractTableNames stmt).get k = lastBinding k (fromLeaves stmt.From)) := by
  refine ⟨?_, extractTableNames_get⟩
  intro a b x jn cond se w
  have hkey : (extractTableNames (.mk se
      [.JoinTableExpr (.mk (aliasedTable (a, x)) jn (aliasedTable (b, x)) cond)] w)).get
        (effectiveAlias x b.Name) = some b.Name := by
    unfold extractTableNames
    rw [Select.From, extractTableNamesLoop_cons]
    simp [extractTableNamesLoop, bindTableExpr, handleJoinTableExpr_mk, aliasedTable,
      bindAliasedTableExpr_eq, bindLeaf, GoMap.get_set]
  refine ⟨hkey, fun hx => ?_⟩
  have hx2 : effectiveAlias x b.Name = x := by simp [effectiveAlias, hx]
  rw [hx2] at hkey
  exact hkey

theorem C11_rightmost_leaf_wins_witness :
    (extractTableNames (.mk []
      [.JoinTableExpr (.mk (aliasedTable (⟨"a", ""⟩, "x")) "join" (aliasedTable (⟨"b", ""⟩, "x"))
        none)] none)).get "x" = some "b" :=
  (C11_rightmost_leaf_wins.1 ⟨"a", ""⟩ ⟨"b", ""⟩ "x" "join" none [] none).2 (by decide)

/-! ## The walk does not read the column map -/

theorem GoMap.empty_mergeFrom (src : GoMap) : GoMap.empty.mergeFrom src = src :=
  Finmap.union_empty

theorem GoMap.mergeFrom_assoc (C L G : GoMap) :
    (C.mergeFrom L).mergeFrom G = C.mergeFrom (L.mergeFrom G) :=
  Finmap.union_assoc.symm

theorem GoMap.mergeFrom_self (D : GoMap) : D.mergeFrom D = D := by
  apply GoMap.ext
  intro k
  rw [GoMap.get_mergeFrom]
  by_cases h : k ∈ D <;> simp [h]

theorem GoMap.set_eq_mergeFrom (C : GoMap) (c t : String) :
    C.set c t = C.mergeFrom (GoMap.empty.set c t) := by
  apply GoMap.ext
  intro k
  rw [GoMap.get_mergeFrom, GoMap.get_set, GoMap.get_set, GoMap.get_empty]
  by_cases h : k = c
  · simp [h, GoMap.mem_set]
  · simp [h, GoMap.mem_set, GoMap.not_mem_empty]

theorem columns_merge_into :
    (∀ e C M, extractColumnsFromExpr e C M =
        (C.mergeFrom (extractColumnsFromExpr e GoMap.empty M).1,
          (extractColumnsFromExpr e GoMap.empty M).2)) ∧
    (∀ _ : Option Where, True) ∧
    (∀ args C M, extractColumnsFromFuncArgs args C M =
        (C.mergeFrom (extractColumnsFromFuncArgs args GoMap.empty M).1,
          (extractColumnsFromFuncArgs args GoMap.empty M).2)) := by
  have seq : ∀ (f g : GoMap → GoMap → GoMap × GoMap),
      (∀ C M, f C M = (C.mergeFrom (f GoMap.empty M).1, (f GoMap.empty M).2)) →
      (∀ C M, g C M = (C.mergeFrom (g GoMap.empty M).1, (g GoMap.empty M).2)) →
      ∀ C M, g (f C M).1 (f C M).2 =
        (C.mergeFrom (g (f GoMap.empty M).1 (f GoMap.empty M).2).1,
          (g (f GoMap.empty M).1 (f GoMap.empty M).2).2) := by
    intro f g hf hg C M
    have h1 : (f C M).1 = C.mergeFrom (f GoMap.empty M).1 := by rw [hf C M]
    have h2 : (f C M).2 = (f GoMap.empty M).2 := by rw [hf C M]
    rw [h1, h2, hg (C.mergeFrom (f GoMap.empty M).1), hg (f GoMap.empty M).1,
      GoMap.mergeFrom_assoc]
  have same : ∀ C M : GoMap, (C, M) = (C.mergeFrom (GoMap.empty, M).1, (GoMap.empty, M).2) := by
    intro C M
    rw [GoMap.mergeFrom_empty]
  have nested : ∀ (C sc M2 : GoMap),
      (C.mergeFrom sc, M2) =
        (C.mergeFrom (GoMap.empty.mergeFrom sc, M2).1, (GoMap.empty.mergeFrom sc, M2).2) := by
    intro C sc M2
    rw [GoMap.empty_mergeFrom]
  apply walk_induction
    (P := fun e => ∀ C M, extractColumnsFromExpr e C M =
        (C.mergeFrom (extractColumnsFromExpr e GoMap.empty M).1,
          (extractColumnsFromExpr e GoMap.empty M).2))
    (Q := fun _ => True)
    (R := fun args => ∀ C M, extractColumnsFromFuncArgs args C M =
        (C.mergeFrom (extractColumnsFromFuncArgs args GoMap.empty M).1,
          (extractColumnsFromFuncArgs args GoMap.empty M).2))
  case hAnd => exact fun l r hl hr => seq _ _ hl hr
  case hOr => exact fun l r hl hr => seq _ _ hl hr
  case hCmp => exact fun op l r hl hr => seq _ _ hl hr
  case hRange => exact fun op l f t hl hf ht => seq _ _ (seq _ _ hl hf) ht
  case hIs => exact fun op e he => he
  case hNot => exact fun e he => he
  case hParen => exact fun e he => he
  case hCol =>
    intro c q C M
    rcases expr_colName_cases c q GoMap.empty M with ⟨h0, hno⟩ | ⟨t, hq, hM, h0⟩
    · have hC : extractColumnsFromExpr (.ColName c q) C M = (C, M) := by
        rw [expr_colName]
        rcases hno with h | h
        · simp [h]
        · simp [h]
      rw [hC, h0]
      exact same C M
    · have hC : extractColumnsFromExpr (.ColName c q) C M = (C.set c t, M) := by
        rw [expr_colName, if_pos hq, hM]
      rw [hC, h0, GoMap.set_eq_mergeFrom]
  case hVal => exact fun v C M => same C M
  case hSub =>
    intro se f w _ C M
    rw [expr_subquery, expr_subquery]
    exact nested _ _ _
  case hSubUnion => exact fun t l r C M => same C M
  case hSubParen => exact fun s C M => same C M
  case hFunc => exact fun n args h => h
  case hExists =>
    intro se f w _ C M
    rw [expr_exists, expr_exists]
    exact nested _ _ _
  case hExistsUnion => exact fun t l r C M => same C M
  case hExistsParen => exact fun s C M => same C M
  case hNull => exact fun C M => same C M
  case hBool => exact fun b C M => same C M
  case hBinary => exact fun op l r C M => same C M
  case hUnary => exact fun op e C M => same C M
  case hNone => trivial
  case hSome => exact fun _ _ _ => trivial
  case hNil => exact fun C M => same C M
  case hAliased => exact fun e a rest he hrest => seq _ _ he hrest
  case hStar => exact fun t rest hrest => hrest
  case hNextval => exact fun e rest hrest => hrest

/-- C19: the walk never reads the column map: the column map after
`extractColumnsFromExpr e C M` is `C` overwritten by the map
`extractColumnsFromWhere` returns for a `WHERE` clause with root `e` and alias
map `M`, and the resulting alias map does not depend on `C`.  Hence collecting
a subquery's columns in a fresh map and merging it is the same as walking the
subquery's filter in place on the enclosing column map. -/
theorem C19_column_map_never_read (ty : String) (e : Expr) (C M : GoMap) :
    (extractColumnsFromExpr e C M).1 =
      C.mergeFrom (extractColumnsFromWhere (some (.mk ty e)) M).1 ∧
    (extractColumnsFromExpr e C M).2 = (extractColumnsFromWhere (some (.mk ty e)) M).2 ∧
    (∀ C1, (extractColumnsFromExpr e C1 M).2 = (extractColumnsFromExpr e C M).2) ∧
    (∀ (se : List SelectExpr) (f : List TableExpr),
      extractColumnsFromExpr (.Subquery (.Select (.mk se f (some (.mk ty e))))) C M =
        extractColumnsFromExpr e C
          (M.mergeFrom (extractTableNames (.mk se f (some (.mk ty e)))))) := by
  have h := columns_merge_into.1 e
  refine ⟨?_, ?_, ?_, ?_⟩
  · rw [where_some, h C M]
  · rw [where_some, h C M]
  · intro C1
    rw [h C1 M, h C M]
  · intro se f
    rw [expr_subquery, where_some, h C (M.mergeFrom _)]

/-! ## A second pass -/

theorem alias_is_merge :
    (∀ e C M, (extractColumnsFromExpr e C M).2 =
        M.mergeFrom (extractColumnsFromExpr e GoMap.empty GoMap.empty).2) ∧
    (∀ w M, (extractColumnsFromWhere w M).2 =
        M.mergeFrom (extractColumnsFromWhere w GoMap.empty).2) ∧
    (∀ args C M, (extractColumnsFromFuncArgs args C M).2 =
        M.mergeFrom (extractColumnsFromFuncArgs args GoMap.empty GoMap.empty).2) := by
  have seq : ∀ (f g : GoMap → GoMap → GoMap × GoMap),
      (∀ C M, (f C M).2 = M.mergeFrom (f GoMap.empty GoMap.empty).2) →
      (∀ C M, (g C M).2 = M.mergeFrom (g GoMap.empty GoMap.empty).2) →
      ∀ C M, (g (f C M).1 (f C M).2).2 =
        M.mergeFrom (g (f GoMap.empty GoMap.empty).1 (f GoMap.empty GoMap.empty).2).2 := by
    intro f g hf hg C M
    rw [hg (f C M).1, hg (f GoMap.empty GoMap.empty).1, hf C M, GoMap.mergeFrom_assoc]
  have same : ∀ M : GoMap, M = M.mergeFrom GoMap.empty := fun M => (GoMap.mergeFrom_empty M).symm
  have nested : ∀ (se : List SelectExpr) (f : List TableExpr) (w : Option Where),
      (∀ M, (extractColumnsFromWhere w M).2 =
        M.mergeFrom (extractColumnsFromWhere w GoMap.empty).2) →
      ∀ M : GoMap,
        (extractColumnsFromWhere w (M.mergeFrom (extractTableNames (.mk se f w)))).2 =
          M.mergeFrom (extractColumnsFromWhere w
            (GoMap.empty.mergeFrom (extractTableNames (.mk se f w)))).2 := by
    intro se f w hw M
    rw [hw (M.mergeFrom _), hw (GoMap.empty.mergeFrom _), GoMap.empty_mergeFrom,
      GoMap.mergeFrom_assoc]
  apply walk_induction
    (P := fun e => ∀ C M, (extractColumnsFromExpr e C M).2 =
        M.mergeFrom (extractColumnsFromExpr e GoMap.empty GoMap.empty).2)
    (Q := fun w => ∀ M, (extractColumnsFromWhere w M).2 =
        M.mergeFrom (extractColumnsFromWhere w GoMap.empty).2)
    (R := fun args => ∀ C M, (extractColumnsFromFuncArgs args C M).2 =
        M.mergeFrom (extractColumnsFromFuncArgs args GoMap.empty GoMap.empty).2)
  case hAnd => exact fun l r hl hr => seq _ _ hl hr
  case hOr => exact fun l r hl hr => seq _ _ hl hr
  case hCmp => exact fun op l r hl hr => seq _ _ hl hr
  case hRange => exact fun op l f t hl hf ht => seq _ _ (seq _ _ hl hf) ht
  case hIs => exact fun op e he => he
  case hNot => exact fun e he => he
  case hParen => exact fun e he => he
  case hCol =>
    intro c q C M
    have h1 : (extractColumnsFromExpr (.ColName c q) C M).2 = M := by
      rcases expr_colName_cases c q C M with ⟨h, _⟩ | ⟨t, _, _, h⟩ <;> rw [h]
    have h2 : (extractColumnsFromExpr (.ColName c q) GoMap.empty GoMap.empty).2 =
        GoMap.empty := by
      rcases expr_colName_cases c q GoMap.empty GoMap.empty with ⟨h, _⟩ | ⟨t, _, _, h⟩ <;>
        rw [h]
    rw [h1, h2]
    exact same M
  case hVal => exact fun v C M => same M
  case hSub =>
    intro se f w hw C M
    rw [expr_subquery, expr_subquery]
    exact nested se f w hw M
  case hSubUnion => exact fun t l r C M => same M
  case hSubParen => exact fun s C M => same M
  case hFunc => exact fun n args h => h
  case hExists =>
    intro se f w hw C M
    rw [expr_exists, expr_exists]
    exact nested se f w hw M
  case hExistsUnion => exact fun t l r C M => same M
  case hExistsParen => exact fun s C M => same M
  case hNull => exact fun C M => same M
  case hBool => exact fun b C M => same M
  case hBinary => exact fun op l r C M => same M
  case hUnary => exact fun op e C M => same M
  case hNone => exact fun M => same M
  case hSome =>
    intro t e he M
    rw [where_some, where_some]
    exact he GoMap.empty M
  case hNil => exact fun C M => same M
  case hAliased => exact fun e a rest he hrest => seq _ _ he hrest
  case hStar => exact fun t rest hrest => hrest
  case hNextval => exact fun e rest hrest => hrest

theorem keys_monotone :
    (∀ e (C C1 M M1 : GoMap), (∀ k, k ∈ C → k ∈ C1) → (∀ k, k ∈ M → k ∈ M1) →
        (∀ k, k ∈ (extractColumnsFromExpr e C M).1 → k ∈ (extractColumnsFromExpr e C1 M1).1) ∧
        (∀ k, k ∈ (extractColumnsFromExpr e C M).2 → k ∈ (extractColumnsFromExpr e C1 M1).2)) ∧
    (∀ w (M M1 : GoMap), (∀ k, k ∈ M → k ∈ M1) →
        (∀ k, k ∈ (extractColumnsFromWhere w M).1 → k ∈ (extractColumnsFromWhere w M1).1) ∧
        (∀ k, k ∈ (extractColumnsFromWhere w M).2 → k ∈ (extractColumnsFromWhere w M1).2)) ∧
    (∀ args (C C1 M M1 : GoMap), (∀ k, k ∈ C → k ∈ C1) → (∀ k, k ∈ M → k ∈ M1) →
        (∀ k, k ∈ (extractColumnsFromFuncArgs args C M).1 →
          k ∈ (extractColumnsFromFuncArgs args C1 M1).1) ∧
        (∀ k, k ∈ (extractColumnsFromFuncArgs args C M).2 →
          k ∈ (extractColumnsFromFuncArgs args C1 M1).2)) := by
  have seq : ∀ (f g : GoMap → GoMap → GoMap × GoMap),
      (∀ (C C1 M M1 : GoMap), (∀ k, k ∈ C → k ∈ C1) → (∀ k, k ∈ M → k ∈ M1) →
        (∀ k, k ∈ (f C M).1 → k ∈ (f C1 M1).1) ∧ (∀ k, k ∈ (f C M).2 → k ∈ (f C1 M1).2)) →
      (∀ (C C1 M M1 : GoMap), (∀ k, k ∈ C → k ∈ C1) → (∀ k, k ∈ M → k ∈ M1) →
        (∀ k, k ∈ (g C M).1 → k ∈ (g C1 M1).1) ∧ (∀ k, k ∈ (g C M).2 → k ∈ (g C1 M1).2)) →
      ∀ (C C1 M M1 : GoMap), (∀ k, k ∈ C → k ∈ C1) → (∀ k, k ∈ M → k ∈ M1) →
        (∀ k, k ∈ (g (f C M).1 (f C M).2).1 → k ∈ (g (f C1 M1).1 (f C1 M1).2).1) ∧
        (∀ k, k ∈ (g (f C M).1 (f C M).2).2 → k ∈ (g (f C1 M1).1 (f C1 M1).2).2) := by
    intro f g hf hg C C1 M M1 hC hM
    exact hg _ _ _ _ (hf C C1 M M1 hC hM).1 (hf C C1 M M1 hC hM).2
  have same : ∀ (C C1 M M1 : GoMap), (∀ k, k ∈ C → k ∈ C1) → (∀ k, k ∈ M → k ∈ M1) →
      (∀ k, k ∈ (C, M).1 → k ∈ (C1, M1).1) ∧ (∀ k, k ∈ (C, M).2 → k ∈ (C1, M1).2) :=
    fun C C1 M M1 hC hM => ⟨hC, hM⟩
  have nested : ∀ (se : List SelectExpr) (f : List TableExpr) (w : Option Where),
      (∀ (M M1 : GoMap), (∀ k, k ∈ M → k ∈ M1) →
        (∀ k, k ∈ (extractColumnsFromWhere w M).1 → k ∈ (extractColumnsFromWhere w M1).1) ∧
        (∀ k, k ∈ (extractColumnsFromWhere w M).2 → k ∈ (extractColumnsFromWhere w M1).2)) →
      ∀ (C C1 M M1 : GoMap), (∀ k, k ∈ C → k ∈ C1) → (∀ k, k ∈ M → k ∈ M1) →
        (∀ k, k ∈ (C.mergeFrom (extractColumnsFromWhere w
              (M.mergeFrom (extractTableNames (.mk se f w)))).1,
            (extractColumnsFromWhere w (M.mergeFrom (extractTableNames (.mk se f w)))).2).1 →
          k ∈ (C1.mergeFrom (extractColumnsFromWhere w
              (M1.mergeFrom (extractTableNames (.mk se f w)))).1,
            (extractColumnsFromWhere w (M1.mergeFrom (extractTableNames (.mk se f w)))).2).1) ∧
        (∀ k, k ∈ (C.mergeFrom (extractColumnsFromWhere w
              (M.mergeFrom (extractTableNames (.mk se f w)))).1,
            (extractColumnsFromWhere w (M.mergeFrom (extractTableNames (.mk se f w)))).2).2 →
          k ∈ (C1.mergeFrom (extractColumnsFromWhere w
              (M1.mergeFrom (extractTableNames (.mk se f w)))).1,
            (extractColumnsFromWhere w (M1.mergeFrom (extractTableNames (.mk se f w)))).2).2) := by
    intro se f w hw C C1 M M1 hC hM
    have hmerged : ∀ k, k ∈ M.mergeFrom (extractTableNames (.mk se f w)) →
        k ∈ M1.mergeFrom (extractTableNames (.mk se f w)) := by
      intro k hk
      rcases GoMap.mem_mergeFrom.1 hk with h | h
      · exact GoMap.mem_mergeFrom.2 (Or.inl h)
      · exact GoMap.mem_mergeFrom.2 (Or.inr (hM k h))
    refine ⟨fun k hk => ?_, (hw _ _ hmerged).2⟩
    rcases GoMap.mem_mergeFrom.1 hk with h | h
    · exact GoMap.mem_mergeFrom.2 (Or.inl ((hw _ _ hmerged).1 k h))
    · exact GoMap.mem_mergeFrom.2 (Or.inr (hC k h))
  apply walk_induction
    (P := fun e => ∀ (C C1 M M1 : GoMap), (∀ k, k ∈ C → k ∈ C1) → (∀ k, k ∈ M → k ∈ M1) →
        (∀ k, k ∈ (extractColumnsFromExpr e C M).1 → k ∈ (extractColumnsFromExpr e C1 M1).1) ∧
        (∀ k, k ∈ (extractColumnsFromExpr e C M).2 → k ∈ (extractColumnsFromExpr e C1 M1).2))
    (Q := fun w => ∀ (M M1 : GoMap), (∀ k, k ∈ M → k ∈ M1) →
        (∀ k, k ∈ (extractColumnsFromWhere w M).1 → k ∈ (extractColumnsFromWhere w M1).1) ∧
        (∀ k, k ∈ (extractColumnsFromWhere w M).2 → k ∈ (extractColumnsFromWhere w M1).2))
    (R := fun args => ∀ (C C1 M M1 : GoMap), (∀ k, k ∈ C → k ∈ C1) → (∀ k, k ∈ M → k ∈ M1) →
        (∀ k, k ∈ (extractColumnsFromFuncArgs args C M).1 →
          k ∈ (extractColumnsFromFuncArgs args C1 M1).1) ∧
        (∀ k, k ∈ (extractColumnsFromFuncArgs args C M).2 →
          k ∈ (extractColumnsFromFuncArgs args C1 M1).2))
  case hAnd => exact fun l r hl hr => seq _ _ hl hr
  case hOr => exact fun l r hl hr => seq _ _ hl hr
  case hCmp => exact fun op l r hl hr => seq _ _ hl hr
  case hRange => exact fun op l f t hl hf ht => seq _ _ (seq _ _ hl hf) ht
  case hIs => exact fun op e he => he
  case hNot => exact fun e he => he
  case hParen => exact fun e he => he
  case hCol =>
    intro c q C C1 M M1 hC hM
    rcases expr_colName_cases c q C M with ⟨h, _⟩ | ⟨t, hq, hget, h⟩
    · rw [h]
      rcases expr_colName_cases c q C1 M1 with ⟨h1, _⟩ | ⟨t1, _, _, h1⟩
      · rw [h1]
        exact ⟨hC, hM⟩
      · rw [h1]
        exact ⟨fun k hk => GoMap.mem_set.2 (Or.inr (hC k hk)), hM⟩
    · rw [h]
      have hq1 : q.Name ∈ M1 := hM _ (GoMap.mem_iff_get.2 ⟨t, hget⟩)
      obtain ⟨t1, ht1⟩ := GoMap.mem_iff_get.1 hq1
      have h1 : extractColumnsFromExpr (.ColName c q) C1 M1 = (C1.set c t1, M1) := by
        rw [expr_colName, if_pos hq, ht1]
      rw [h1]
      refine ⟨fun k hk => ?_, hM⟩
      rcases GoMap.mem_set.1 hk with hk1 | hk1
      · exact GoMap.mem_set.2 (Or.inl hk1)
      · exact GoMap.mem_set.2 (Or.inr (hC k hk1))
  case hVal => exact fun v => same
  case hSub =>
    intro se f w hw C C1 M M1 hC hM
    rw [expr_subquery, expr_subquery]
    exact nested se f w hw C C1 M M1 hC hM
  case hSubUnion => exact fun t l r => same
  case hSubParen => exact fun s => same
  case hFunc => exact fun n args h => h
  case hExists =>
    intro se f w hw C C1 M M1 hC hM
    rw [expr_exists, expr_exists]
    exact nested se f w hw C C1 M M1 hC hM
  case hExistsUnion => exact fun t l r => same
  case hExistsParen => exact fun s => same
  case hNull => exact same
  case hBool => exact fun b => same
  case hBinary => exact fun op l r => same
  case hUnary => exact fun op e => same
  case hNone => exact fun M M1 hM => ⟨fun k hk => hk, hM⟩
  case hSome => exact fun t e he M M1 hM => he _ _ M M1 (fun k hk => hk) hM
  case hNil => exact same
  case hAliased => exact fun e a rest he hrest => seq _ _ he hrest
  case hStar => exact fun t rest hrest => hrest
  case hNextval => exact fun e rest hrest => hrest

/-- C20: the alias map reaches a fixpoint after one pass: if `M1` is the alias
map after `extractColumnsFromWhere w M0`, running `extractColumnsFromWhere w
M1` leaves the alias map equal to `M1`, and every key of the first pass's
column map is a key of the second pass's column map. -/
theorem C20_alias_fixpoint (w : Option Where) (M0 : GoMap) :
    (extractColumnsFromWhere w (extractColumnsFromWhere w M0).2).2 =
      (extractColumnsFromWhere w M0).2 ∧
    ∀ k, k ∈ (extractColumnsFromWhere w M0).1 →
      k ∈ (extractColumnsFromWhere w (extractColumnsFromWhere w M0).2).1 := by
  constructor
  · rw [alias_is_merge.2.1 w (extractColumnsFromWhere w M0).2, alias_is_merge.2.1 w M0,
      GoMap.mergeFrom_assoc, GoMap.mergeFrom_self]
  · exact (keys_monotone.2.1 w M0 (extractColumnsFromWhere w M0).2 (keys_grow.2.1 w M0)).1

theorem C20_alias_fixpoint_witness :
    "rating" ∈ (extractColumnsFromWhere (some (.mk "where" existsReviews))
      (extractColumnsFromWhere (some (.mk "where" existsReviews)) GoMap.empty).2).1 :=
  (C20_alias_fixpoint (some (.mk "where" existsReviews)) GoMap.empty).2 "rating" (by decide)

/-! ## Subqueries in the projection list -/

/-- C13 fails as stated: for the query of `ExtractWhereColumns`, whose
projection list holds `(SELECT MAX(p.price) FROM products p WHERE p.order_id =
o.order_id)`, running `extractTableNames` and then `extractColumnsFromWhere`
does not bind `p` to `products`, and records no entry for `order_id`. -/
theorem C13_projection_subquery_not_visited :
    ¬ ((extractColumnsFromWhere demoQuery.Where (extractTableNames demoQuery)).2.get "p" =
        some "products" ∧
      "order_id" ∈ (extractColumnsFromWhere demoQuery.Where (extractTableNames demoQuery)).1) := by
  intro h
  have hp : (extractColumnsFromWhere demoQuery.Where (extractTableNames demoQuery)).2.get "p" =
      none := by decide
  rw [hp] at h
  exact absurd h.1 (by simp)

/-- C13, amended: nested statements are resolved only where they occur in the
`WHERE` expression.  Neither `extractTableNames` nor `extractColumnsFromWhere`
reads the projection list, so replacing it changes nothing; for the query of
`ExtractWhereColumns` the alias map is `{u: users, o: orders}` after binding
and `{u: users, o: orders, r: reviews}` after the walk, `p` staying unbound,
and the column map is `{age: users, amount: orders, name: users, status:
orders, user_id: reviews, id: users, rating: reviews}`, with no entry for
`order_id` or `price`. -/
theorem C13_projection_list_ignored :
    (∀ (se se1 : List SelectExpr) (f : List TableExpr) (w : Option Where) (M : GoMap),
      extractTableNames (.mk se f w) = extractTableNames (.mk se1 f w) ∧
      extractColumnsFromWhere (Select.Where (.mk se f w)) M =
        extractColumnsFromWhere (Select.Where (.mk se1 f w)) M) ∧
    extractTableNames demoQuery = GoMap.ofList [("u", "users"), ("o", "orders")] ∧
    extractColumnsFromWhere demoQuery.Where (extractTableNames demoQuery) =
      (GoMap.ofList [("age", "users"), ("amount", "orders"), ("name", "users"),
          ("status", "orders"), ("user_id", "reviews"), ("id", "users"), ("rating", "reviews")],
        GoMap.ofList [("u", "users"), ("o", "orders"), ("r", "reviews")]) ∧
    (extractColumnsFromWhere demoQuery.Where (extractTableNames demoQuery)).2.get "p" = none ∧
    (extractColumnsFromWhere demoQuery.Where (extractTableNames demoQuery)).1.get "order_id" =
      none ∧
    (extractColumnsFromWhere demoQuery.Where (extractTableNames demoQuery)).1.get "price" =
      none :=
  ⟨fun _ _ _ _ _ => ⟨rfl, rfl⟩, rfl, rfl, by decide, by decide, by decide⟩

/-! ## Termination and the depth of the stack -/

theorem guard_bind {α β : Type} (p : Prop) [Decidable p] (x : α) (f : α → Option β) :
    (if p then some x else none).bind f = if p then f x else none := by
  by_cases h : p <;> simp [h]

theorem guard_guard {α : Type} (p q : Prop) [Decidable p] [Decidable q] (x : α) :
    (if p then (if q then some x else none) else none) = if p ∧ q then some x else none := by
  by_cases hp : p <;> by_cases hq : q <;> simp [hp, hq]

theorem max_succ_le (n a b : Nat) : max a b + 1 ≤ n + 1 ↔ a ≤ n ∧ b ≤ n := by
  rw [Nat.add_le_add_iff_right, Nat.max_le]

theorem bindTableExprOnStack_eq (n : Nat)
    (ih : ∀ (j : JoinTableExpr) (m : GoMap), handleJoinTableExprOnStack n j m =
      if j.callDepth ≤ n then some (handleJoinTableExpr j m) else none)
    (t : TableExpr) (m : GoMap) :
    (match t with
      | .AliasedTableExpr e a => some (bindAliasedTableExpr e a m)
      | .JoinTableExpr left => handleJoinTableExprOnStack n left m
      | .ParenTableExpr _ => some m) =
      if t.joinCallDepth ≤ n then some (bindTableExpr t m) else none := by
  cases t with
  | AliasedTableExpr e a => simp [TableExpr.joinCallDepth, bindTableExpr]
  | ParenTableExpr es => simp [TableExpr.joinCallDepth, bindTableExpr]
  | JoinTableExpr j =>
    simp only [TableExpr.joinCallDepth, bindTableExpr]
    exact ih j m

theorem handleJoinTableExprOnStack_eq :
    ∀ (n : Nat) (j : JoinTableExpr) (m : GoMap), handleJoinTableExprOnStack n j m =
      if j.callDepth ≤ n then some (handleJoinTableExpr j m) else none := by
  intro n
  induction n with
  | zero =>
    intro j m
    obtain ⟨l, jn, r, cond⟩ := j
    simp [handleJoinTableExprOnStack, JoinTableExpr.callDepth]
  | succ n ih =>
    intro j m
    obtain ⟨l, jn, r, cond⟩ := j
    have hl := bindTableExprOnStack_eq n ih l
    have hr := bindTableExprOnStack_eq n ih r
    simp only [handleJoinTableExprOnStack, hl, hr, guard_bind, guard_guard,
      JoinTableExpr.callDepth, max_succ_le, handleJoinTableExpr_mk]

theorem extractTableNamesLoopOnStack_eq (n : Nat) (From : List TableExpr) (m : GoMap) :
    extractTableNamesLoopOnStack n From m =
      if fromCallDepth From ≤ n then some (extractTableNamesLoop From m) else none := by
  induction From generalizing m with
  | nil => simp [extractTableNamesLoopOnStack, fromCallDepth, extractTableNamesLoop]
  | cons t rest ih =>
    have hrest : extractTableNamesLoopOnStack n rest = fun m1 =>
        if fromCallDepth rest ≤ n then some (extractTableNamesLoop rest m1) else none :=
      funext ih
    cases t with
    | AliasedTableExpr e a =>
      simp [extractTableNamesLoopOnStack, fromCallDepth, extractTableNamesLoop,
        TableExpr.joinCallDepth, ih]
    | ParenTableExpr es =>
      simp [extractTableNamesLoopOnStack, fromCallDepth, extractTableNamesLoop,
        TableExpr.joinCallDepth, ih]
    | JoinTableExpr j =>
      simp only [extractTableNamesLoopOnStack, hrest, handleJoinTableExprOnStack_eq, guard_bind,
        guard_guard, fromCallDepth, TableExpr.joinCallDepth, Nat.max_le, extractTableNamesLoop]

theorem extractTableNamesOnStack_eq (n : Nat) (stmt : Select) :
    extractTableNamesOnStack n stmt =
      if stmt.bindCallDepth ≤ n then some (extractTableNames stmt) else none := by
  cases n with
  | zero => simp [extractTableNamesOnStack, Select.bindCallDepth]
  | succ n =>
    simp only [extractTableNamesOnStack, extractTableNamesLoopOnStack_eq, Select.bindCallDepth,
      Nat.add_le_add_iff_right, extractTableNames]

theorem Expr.callDepth_pos (e : Expr) : ¬ e.callDepth ≤ 0 := by
  cases e with
  | Subquery s =>
    cases s with
    | Select sel =>
      obtain ⟨se, f, w⟩ := sel
      simp [Expr.callDepth]
    | Union t l r => simp [Expr.callDepth]
    | ParenSelect s1 => simp [Expr.callDepth]
  | ExistsExpr s =>
    cases s with
    | Select sel =>
      obtain ⟨se, f, w⟩ := sel
      simp [Expr.callDepth]
    | Union t l r => simp [Expr.callDepth]
    | ParenSelect s1 => simp [Expr.callDepth]
  | _ => simp [Expr.callDepth]

theorem foldl_resolveArgOnStack (n : Nat) (args : List SelectExpr)
    (acc : Option (GoMap × GoMap)) :
    args.foldl
        (resolveArgOnStack fun e C M =>
          if e.callDepth ≤ n then some (extractColumnsFromExpr e C M) else none) acc =
      acc.bind fun s =>
        if argsCallDepth args ≤ n then some (extractColumnsFromFuncArgs args s.1 s.2)
        else none := by
  induction args generalizing acc with
  | nil =>
    cases acc <;> simp [argsCallDepth, args_nil]
  | cons arg rest ih =>
    rw [List.foldl_cons, ih]
    cases acc with
    | none => simp [resolveArgOnStack]
    | some s =>
      cases arg with
      | AliasedExpr e a =>
        simp only [resolveArgOnStack, Option.some_bind, guard_bind, guard_guard, argsCallDepth,
          Nat.max_le, args_aliased]
      | StarExpr t =>
        simp only [resolveArgOnStack, Option.some_bind, argsCallDepth, args_star]
      | Nextval e =>
        simp only [resolveArgOnStack, Option.some_bind, argsCallDepth, args_nextval]

theorem walkOnStack_eq :
    ∀ n : Nat,
      (∀ e C M, extractColumnsFromExprOnStack n e C M =
        if e.callDepth ≤ n then some (extractColumnsFromExpr e C M) else none) ∧
      (∀ w M, extractColumnsFromWhereOnStack n w M =
        if whereCallDepth w ≤ n then some (extractColumnsFromWhere w M) else none) := by
  intro n
  induction n with
  | zero =>
    refine ⟨fun e C M => ?_, fun w M => ?_⟩
    · rw [if_neg (Expr.callDepth_pos e)]
      simp [extractColumnsFromExprOnStack]
    · cases w with
      | none => simp [extractColumnsFromWhereOnStack, whereCallDepth]
      | some wh =>
        obtain ⟨t, e⟩ := wh
        simp [extractColumnsFromWhereOnStack, whereCallDepth]
  | succ n ih =>
    obtain ⟨ihE, ihW⟩ := ih
    have hwalk : extractColumnsFromExprOnStack n = fun e C M =>
        if e.callDepth ≤ n then some (extractColumnsFromExpr e C M) else none :=
      funext fun e => funext fun C => funext fun M => ihE e C M
    refine ⟨fun e C M => ?_, fun w M => ?_⟩
    · cases e with
      | AndExpr l r =>
        simp only [extractColumnsFromExprOnStack, ihE, guard_bind, guard_guard,
          Expr.callDepth, max_succ_le, expr_and]
      | OrExpr l r =>
        simp only [extractColumnsFromExprOnStack, ihE, guard_bind, guard_guard,
          Expr.callDepth, max_succ_le, expr_or]
      | ComparisonExpr op l r =>
        simp only [extractColumnsFromExprOnStack, ihE, guard_bind, guard_guard,
          Expr.callDepth, max_succ_le, expr_comparison]
      | RangeCond op l f t =>
        simp only [extractColumnsFromExprOnStack, ihE, guard_bind, guard_guard,
          Expr.callDepth, max_succ_le, Nat.max_le, expr_range, and_assoc]
      | IsExpr op e1 =>
        simp only [extractColumnsFromExprOnStack, ihE, Expr.callDepth,
          Nat.add_le_add_iff_right, expr_is]
      | NotExpr e1 =>
        simp only [extractColumnsFromExprOnStack, ihE, Expr.callDepth,
          Nat.add_le_add_iff_right, expr_not]
      | ParenExpr e1 =>
        simp only [extractColumnsFromExprOnStack, ihE, Expr.callDepth,
          Nat.add_le_add_iff_right, expr_paren]
      | ColName c q =>
        have hd : (Expr.ColName c q).callDepth ≤ n + 1 := by simp [Expr.callDepth]
        rw [if_pos hd, expr_colName]
        simp only [extractColumnsFromExprOnStack]
        by_cases hq : q.Name = ""
        · simp [hq]
        · cases hM : M.get q.Name <;> simp [hq]
      | SQLVal v =>
        simp only [extractColumnsFromExprOnStack, Expr.callDepth]
        rw [if_pos (by omega)]
        rfl
      | Subquery s =>
        cases s with
        | Select sel =>
          obtain ⟨se, f, w⟩ := sel
          simp only [extractColumnsFromExprOnStack, ihW, extractTableNamesOnStack_eq,
            guard_bind, guard_guard, Option.some_bind, Expr.callDepth, max_succ_le,
            Select.bindCallDepth, Select.From, expr_subquery]
        | Union t l r =>
          simp only [extractColumnsFromExprOnStack, Expr.callDepth]
          rw [if_pos (by omega)]
          rfl
        | ParenSelect s1 =>
          simp only [extractColumnsFromExprOnStack, Expr.callDepth]
          rw [if_pos (by omega)]
          rfl
      | FuncExpr nm args =>
        simp only [extractColumnsFromExprOnStack, hwalk, foldl_resolveArgOnStack,
          Option.some_bind, Expr.callDepth, Nat.add_le_add_iff_right, expr_func]
      | ExistsExpr s =>
        cases s with
        | Select sel =>
          obtain ⟨se, f, w⟩ := sel
          simp only [extractColumnsFromExprOnStack, ihW, extractTableNamesOnStack_eq,
            guard_bind, guard_guard, Option.some_bind, Expr.callDepth, max_succ_le,
            Select.bindCallDepth, Select.From, expr_exists]
        | Union t l r =>
          simp only [extractColumnsFromExprOnStack, Expr.callDepth]
          rw [if_pos (by omega)]
          rfl
        | ParenSelect s1 =>
          simp only [extractColumnsFromExprOnStack, Expr.callDepth]
          rw [if_pos (by omega)]
          rfl
      | NullVal =>
        simp only [extractColumnsFromExprOnStack, Expr.callDepth]
        rw [if_pos (by omega)]
        rfl
      | BoolVal b =>
        simp only [extractColumnsFromExprOnStack, Expr.callDepth]
        rw [if_pos (by omega)]
        rfl
      | BinaryExpr op l r =>
        simp only [extractColumnsFromExprOnStack, Expr.callDepth]
        rw [if_pos (by omega)]
        rfl
      | UnaryExpr op e1 =>
        simp only [extractColumnsFromExprOnStack, Expr.callDepth]
        rw [if_pos (by omega)]
        rfl
    · cases w with
      | none =>
        simp only [extractColumnsFromWhereOnStack, whereCallDepth]
        rw [if_pos (by omega)]
        rfl
      | some wh =>
        obtain ⟨t, e⟩ := wh
        simp only [extractColumnsFromWhereOnStack, ihE, whereCallDepth,
          Nat.add_le_add_iff_right, where_some]

theorem TableExpr.joinCallDepth_le_sizeOf : ∀ t : TableExpr, t.joinCallDepth ≤ sizeOf t
  | .AliasedTableExpr e a => by simp [TableExpr.joinCallDepth]
  | .ParenTableExpr es => by simp [TableExpr.joinCallDepth]
  | .JoinTableExpr (.mk l jn r cond) => by
    have hl := TableExpr.joinCallDepth_le_sizeOf l
    have hr := TableExpr.joinCallDepth_le_sizeOf r
    simp only [TableExpr.joinCallDepth, JoinTableExpr.callDepth,
      TableExpr.JoinTableExpr.sizeOf_spec, JoinTableExpr.mk.sizeOf_spec]
    omega

theorem fromCallDepth_le_sizeOf (From : List TableExpr) : fromCallDepth From ≤ sizeOf From := by
  induction From with
  | nil => simp [fromCallDepth]
  | cons t rest ih =>
    have ht := TableExpr.joinCallDepth_le_sizeOf t
    simp only [fromCallDepth, List.cons.sizeOf_spec]
    omega

theorem callDepth_le_sizeOf :
    (∀ e : Expr, e.callDepth ≤ sizeOf e) ∧
    (∀ w : Option Where, whereCallDepth w ≤ sizeOf w) ∧
    (∀ args : List SelectExpr, argsCallDepth args ≤ sizeOf args) := by
  apply walk_induction
    (P := fun e => e.callDepth ≤ sizeOf e)
    (Q := fun w => whereCallDepth w ≤ sizeOf w)
    (R := fun args => argsCallDepth args ≤ sizeOf args)
  case hAnd =>
    intro l r hl hr
    simp only [Expr.callDepth, Expr.AndExpr.sizeOf_spec]
    omega
  case hOr =>
    intro l r hl hr
    simp only [Expr.callDepth, Expr.OrExpr.sizeOf_spec]
    omega
  case hCmp =>
    intro op l r hl hr
    simp only [Expr.callDepth, Expr.ComparisonExpr.sizeOf_spec]
    omega
  case hRange =>
    intro op l f t hl hf ht
    simp only [Expr.callDepth, Expr.RangeCond.sizeOf_spec]
    omega
  case hIs =>
    intro op e he
    simp only [Expr.callDepth, Expr.IsExpr.sizeOf_spec]
    omega
  case hNot =>
    intro e he
    simp only [Expr.callDepth, Expr.NotExpr.sizeOf_spec]
    omega
  case hParen =>
    intro e he
    simp only [Expr.callDepth, Expr.ParenExpr.sizeOf_spec]
    omega
  case hCol =>
    intro c q
    simp only [Expr.callDepth, Expr.ColName.sizeOf_spec]
    omega
  case hVal =>
    intro v
    simp only [Expr.callDepth, Expr.SQLVal.sizeOf_spec]
    omega
  case hSub =>
    intro se f w hw
    have hf := fromCallDepth_le_sizeOf f
    simp only [Expr.callDepth, Expr.Subquery.sizeOf_spec, SelectStatement.Select.sizeOf_spec,
      Select.mk.sizeOf_spec]
    omega
  case hSubUnion =>
    intro t l r
    simp only [Expr.callDepth, Expr.Subquery.sizeOf_spec]
    omega
  case hSubParen =>
    intro s
    simp only [Expr.callDepth, Expr.Subquery.sizeOf_spec]
    omega
  case hFunc =>
    intro n args h
    simp only [Expr.callDepth, Expr.FuncExpr.sizeOf_spec]
    omega
  case hExists =>
    intro se f w hw
    have hf := fromCallDepth_le_sizeOf f
    simp only [Expr.callDepth, Expr.ExistsExpr.sizeOf_spec, SelectStatement.Select.sizeOf_spec,
      Select.mk.sizeOf_spec]
    omega
  case hExistsUnion =>
    intro t l r
    simp only [Expr.callDepth, Expr.ExistsExpr.sizeOf_spec]
    omega
  case hExistsParen =>
    intro s
    simp only [Expr.callDepth, Expr.ExistsExpr.sizeOf_spec]
    omega
  case hNull => simp [Expr.callDepth]
  case hBool =>
    intro b
    simp only [Expr.callDepth, Expr.BoolVal.sizeOf_spec]
    omega
  case hBinary =>
    intro op l r
    simp only [Expr.callDepth, Expr.BinaryExpr.sizeOf_spec]
    omega
  case hUnary =>
    intro op e
    simp only [Expr.callDepth, Expr.UnaryExpr.sizeOf_spec]
    omega
  case hNone => simp [whereCallDepth]
  case hSome =>
    intro t e he
    simp only [whereCallDepth, Option.some.sizeOf_spec, Where.mk.sizeOf_spec]
    omega
  case hNil => simp [argsCallDepth]
  case hAliased =>
    intro e a rest he hrest
    simp only [argsCallDepth, List.cons.sizeOf_spec, SelectExpr.AliasedExpr.sizeOf_spec]
    omega
  case hStar =>
    intro t rest hrest
    simp only [argsCallDepth, List.cons.sizeOf_spec]
    omega
  case hNextval =>
    intro e rest hrest
    simp only [argsCallDepth, List.cons.sizeOf_spec]
    omega

theorem callDepth_nestedNot (n : Nat) : (nestedNot n).callDepth = n + 1 := by
  induction n with
  | zero => rfl
  | succ n ih => simp only [nestedNot, Expr.callDepth, ih]

/-- C12 fails as stated: the walk has no guard on its depth, so whatever
number `n` of nested calls the stack holds, there is a finite `WHERE` clause,
`NOT NOT ... NOT 1` with `n` negations, on which `extractColumnsFromWhere`
overflows the stack instead of returning a map. -/
theorem C12_deep_nesting_overflows :
    ¬ ∃ n : Nat, ∀ (w : Option Where) (M : GoMap),
      (extractColumnsFromWhereOnStack n w M).isSome = true := by
  rintro ⟨n, h⟩
  have hn := h (some (.mk "where" (nestedNot n))) GoMap.empty
  rw [(walkOnStack_eq n).2, if_neg] at hn
  · cases hn
  · simp only [whereCallDepth, callDepth_nestedNot]
    omega

/-- C12, amended: on every finite `SELECT` statement whose nesting the stack
can hold, `extractTableNames` and `extractColumnsFromWhere` terminate and
return maps, and the walk has no error branch of its own: unrecognised
variants, unbound qualifiers and nested statements that are not plain
`SELECT`s are skipped.  Precisely, on a stack of `n` frames each of the two
returns its map when the depth of nested calls the statement asks for is at
most `n`, and overflows the stack otherwise; that depth never exceeds the size
of the tree, on which the recursion is well-founded, so a stack of as many
frames as the tree has nodes is always enough. -/
theorem C12_walk_returns_within_stack (n : Nat) (stmt : Select) (M : GoMap) :
    extractTableNamesOnStack n stmt =
      (if stmt.bindCallDepth ≤ n then some (extractTableNames stmt) else none) ∧
    extractColumnsFromWhereOnStack n stmt.Where M =
      (if whereCallDepth stmt.Where ≤ n then some (extractColumnsFromWhere stmt.Where M)
        else none) ∧
    stmt.bindCallDepth ≤ sizeOf stmt ∧
    whereCallDepth stmt.Where ≤ sizeOf stmt ∧
    (sizeOf stmt ≤ n →
      extractTableNamesOnStack n stmt = some (extractTableNames stmt) ∧
      extractColumnsFromWhereOnStack n stmt.Where M =
        some (extractColumnsFromWhere stmt.Where M)) := by
  have hb : stmt.bindCallDepth ≤ sizeOf stmt := by
    obtain ⟨se, f, w⟩ := stmt
    have hf := fromCallDepth_le_sizeOf f
    simp only [Select.bindCallDepth, Select.From, Select.mk.sizeOf_spec]
    omega
  have hw : whereCallDepth stmt.Where ≤ sizeOf stmt := by
    obtain ⟨se, f, w⟩ := stmt
    have hw1 := callDepth_le_sizeOf.2.1 w
    simp only [Select.Where, Select.mk.sizeOf_spec]
    omega
  refine ⟨extractTableNamesOnStack_eq n stmt, (walkOnStack_eq n).2 stmt.Where M, hb, hw, ?_⟩
  intro hn
  rw [extractTableNamesOnStack_eq, (walkOnStack_eq n).2, if_pos (by omega), if_pos (by omega)]
  exact ⟨rfl, rfl⟩

theorem C12_walk_returns_within_stack_witness :
    extractTableNamesOnStack (sizeOf demoQuery) demoQuery = some (extractTableNames demoQuery) ∧
    extractColumnsFromWhereOnStack (sizeOf demoQuery) demoQuery.Where
        (extractTableNames demoQuery) =
      some (extractColumnsFromWhere demoQuery.Where (extractTableNames demoQuery)) :=
  (C12_walk_returns_within_stack (sizeOf demoQuery) demoQuery
    (extractTableNames demoQuery)).2.2.2.2 (Nat.le_refl _)

end MysqlWhere
